import Mathlib

/-!
Verification development for the exoplanet-classification repository.

The Python sources are shallowly embedded:

* float values flowing through the pandas pipeline are modelled as `Option ℚ`
  (`none` stands for NaN / a missing cell; the pipeline itself maps every
  non-finite intermediate — `NaN`, `±inf` — to missing before the classifier
  sees it, so a single missing marker is faithful);
* `sqrt` and `log10` are opaque parameter functions `ℚ → ℚ` (no claim depends
  on an analytic property of them, only on where the pipeline applies them);
* a data-frame is a column list together with rows stored as association
  lists; a key absent from a row reads as a missing cell, exactly as
  `pd.DataFrame(list_of_dicts)` fills missing keys with NaN;
* the fitted random-forest (`predict_proba` restricted to the positive
  class) is an arbitrary row function `List (Option ℚ) → ℚ`; sklearn's
  guarantee that probabilities lie in `[0,1]` appears as a hypothesis where
  a claim needs it;
* `sklearn.model_selection.train_test_split` is an arbitrary parameter
  constrained by its documented contract (it returns a partition whose test
  part has `⌈test_size·n⌉` rows).

Rational arithmetic is routed through `Rat.divInt` / integer arithmetic
(`qadd`, `qmul`, …) so that concrete runs of the embedded code reduce inside
the kernel; the bridge lemmas `qadd_eq`, `qmul_eq`, … identify these with
the ordinary field operations of `ℚ`.
-/

namespace Exo

/-! ### Kernel-computable rational arithmetic -/

/-- Multiplication on `ℚ` via `Rat.divInt` (kernel-reducible). -/
def qmul (a b : ℚ) : ℚ := Rat.divInt (a.num * b.num) ((a.den : ℤ) * (b.den : ℤ))

/-- Division on `ℚ` via `Rat.divInt` (kernel-reducible; division by zero
gives zero, as for `ℚ` itself — the pipeline never relies on that value). -/
def qdiv (a b : ℚ) : ℚ := Rat.divInt (a.num * (b.den : ℤ)) ((a.den : ℤ) * b.num)

/-- Addition on `ℚ` via `Rat.divInt` (kernel-reducible). -/
def qadd (a b : ℚ) : ℚ :=
  Rat.divInt (a.num * (b.den : ℤ) + b.num * (a.den : ℤ)) ((a.den : ℤ) * (b.den : ℤ))

/-- Subtraction on `ℚ` via `Rat.divInt` (kernel-reducible). -/
def qsub (a b : ℚ) : ℚ :=
  Rat.divInt (a.num * (b.den : ℤ) - b.num * (a.den : ℤ)) ((a.den : ℤ) * (b.den : ℤ))

/-- The order on `ℚ` by cross-multiplication (kernel-decidable). -/
def qle (a b : ℚ) : Prop := a.num * (b.den : ℤ) ≤ b.num * (a.den : ℤ)

/-- Strict order on `ℚ` by cross-multiplication (kernel-decidable). -/
def qlt (a b : ℚ) : Prop := a.num * (b.den : ℤ) < b.num * (a.den : ℤ)

instance (a b : ℚ) : Decidable (qle a b) :=
  decidable_of_iff (a.num * (b.den : ℤ) ≤ b.num * (a.den : ℤ)) Iff.rfl

instance (a b : ℚ) : Decidable (qlt a b) :=
  decidable_of_iff (a.num * (b.den : ℤ) < b.num * (a.den : ℤ)) Iff.rfl

/-- Binary maximum via `qle` (numpy `clip(lower=…)` on a present value). -/
def qmax (a b : ℚ) : ℚ := if qle a b then b else a

/-! ### Values and records -/

/-- A pandas cell: a finite numeric value or NaN/missing. -/
abbrev Val : Type := Option ℚ

/-- A row / input record: an association list from column name to cell. -/
abbrev Record : Type := List (String × Val)

/-- Association-list lookup (first binding wins, like a Python dict). -/
def alookup (k : String) : List (String × β) → Option β
  | [] => none
  | (k', v) :: rest => if k' = k then some v else alookup k rest

/-- Cell access: a key absent from the row reads as NaN (missing). -/
def cellR (r : Record) (c : String) : Val :=
  match alookup c r with
  | some v => v
  | none => none

/-- Column names a record mentions. -/
def keysR (r : Record) : List String := r.map Prod.fst

/-- Columns of `pd.DataFrame(list_of_dicts)`: every key of every record
(duplicates are harmless, only membership is ever consulted). -/
def colsUnion : List Record → List String
  | [] => []
  | r :: rest => keysR r ++ colsUnion rest

/-- The literal `1e-9` used as clip floor. -/
def clipFloor : ℚ := Rat.divInt 1 1000000000

/-- The literal `1e-6` scaling parts-per-million depth to a fraction. -/
def ppm : ℚ := Rat.divInt 1 1000000

/-! ### Derived features (`_derive` in `mlapp/predictor.py`, identical code
in `_derive_features` in `mlapp/training.py`) -/

/-- `df["koi_duration"] / (df["koi_period"] * 24.0)` under
`np.errstate(divide="ignore", invalid="ignore")`: a zero period yields a
non-finite float which the pipeline's `replace([inf,-inf], nan)` turns into
missing, so the embedding returns `none` there directly. -/
def dutyVal (r : Record) : Val :=
  match cellR r "koi_period", cellR r "koi_duration" with
  | some p, some d => if p = 0 then none else some (qdiv d (qmul p 24))
  | _, _ => none

/-- `(df["koi_depth"].clip(lower=1e-9)) * 1e-6` (`clip` keeps NaN as NaN). -/
def depthFracVal (r : Record) : Val :=
  (cellR r "koi_depth").map (fun x => qmul (qmax x clipFloor) ppm)

/-- `np.sqrt(df["depth_frac"])`, where `depth_frac` was just assigned. -/
def rprstarVal (sq : ℚ → ℚ) (r : Record) : Val :=
  (depthFracVal r).map sq

/-- `np.log10(df["koi_period"].clip(lower=1e-9))`. -/
def logPeriodVal (lg : ℚ → ℚ) (r : Record) : Val :=
  (cellR r "koi_period").map (fun x => lg (qmax x clipFloor))

/-- `np.log10(df["koi_depth"].clip(lower=1e-9))`. -/
def logDepthVal (lg : ℚ → ℚ) (r : Record) : Val :=
  (cellR r "koi_depth").map (fun x => lg (qmax x clipFloor))

/-- Row part of `_derive`: the three guards are frame-level column-presence
tests; a freshly assigned column is prepended, shadowing any older binding
(pandas column assignment overwrites).  All five values are computed from
the untouched base columns of the row, as in the source. -/
def deriveRow (sq lg : ℚ → ℚ) (cols : List String) (r : Record) : Record :=
  let r1 :=
    if "koi_period" ∈ cols ∧ "koi_duration" ∈ cols ∧ "koi_depth" ∈ cols then
      ("rprstar_est", rprstarVal sq r) ::
        ("depth_frac", depthFracVal r) :: ("duty_cycle", dutyVal r) :: r
    else r
  let r2 := if "koi_period" ∈ cols then ("log_period", logPeriodVal lg r) :: r1 else r1
  if "koi_depth" ∈ cols then ("log_depth", logDepthVal lg r) :: r2 else r2

/-- Column part of `_derive`: the frame gains the derived columns whose
guard fired. -/
def deriveCols (cols : List String) : List String :=
  let c1 :=
    if "koi_period" ∈ cols ∧ "koi_duration" ∈ cols ∧ "koi_depth" ∈ cols then
      cols ++ ["duty_cycle", "depth_frac", "rprstar_est"]
    else cols
  let c2 := if "koi_period" ∈ cols then c1 ++ ["log_period"] else c1
  if "koi_depth" ∈ cols then c2 ++ ["log_depth"] else c2

/-! ### Alignment and imputation (`_prepare` in `mlapp/predictor.py`) -/

/-- `df[FEATURES]` after `df[c] = np.nan` for every expected column the
frame lacks: the row projected to the configured feature order. -/
def alignRow (feats cols : List String) (r : Record) : List Val :=
  feats.map fun c => if c ∈ cols then cellR r c else none

/-- `X.fillna(value={k: v for k, v in FEATURE_MEDIANS.items() if k in X.columns})`,
executed only when the medians dict is non-empty (`if FEATURE_MEDIANS:`).
A median that is itself NaN fills nothing. -/
def fillMedRow (med : List (String × Val)) (feats : List String)
    (row : List Val) : List Val :=
  if med.isEmpty then row
  else
    (feats.zip row).map fun cv =>
      match cv.2 with
      | some q => some q
      | none =>
        match alookup cv.1 med with
        | some (some m) => some m
        | _ => none

/-- Sort a list of rationals ascending (pandas median sorts the column). -/
def sortQ (l : List ℚ) : List ℚ := List.insertionSort qle l

/-- `Series.median()` with `skipna` semantics: the middle element, or the
mean of the two middle elements, of the non-missing values; NaN (`none`)
when no value remains. -/
def medianQ (l : List ℚ) : Val :=
  let s := sortQ l
  let n := s.length
  if n = 0 then none
  else if n % 2 = 1 then some (s.getD (n / 2) 0)
  else some (qdiv (qadd (s.getD (n / 2 - 1) 0) (s.getD (n / 2) 0)) 2)

/-- The non-missing entries of column `j` of the prepared matrix. -/
def colVals (X : List (List Val)) (j : ℕ) : List ℚ :=
  X.filterMap fun row => row.getD j none

/-- `X.median(numeric_only=True)` as a per-column list of medians. -/
def colMedians (nfeats : ℕ) (X : List (List Val)) : List Val :=
  (List.range nfeats).map fun j => medianQ (colVals X j)

/-- `X.fillna(X.median(numeric_only=True))`: every still-missing cell is
filled with its own column's batch median (possibly still NaN). -/
def fillBatchMedian (nfeats : ℕ) (X : List (List Val)) : List (List Val) :=
  let meds := colMedians nfeats X
  X.map fun row =>
    List.zipWith
      (fun v m =>
        match v with
        | some q => some q
        | none => m)
      row meds

/-- Everything the inference module loads at start-up
(`FEATURES`, `FEATURE_MEDIANS`, `THRESHOLD`, the fitted forest) together
with the two opaque numeric primitives. -/
structure ModelEnv where
  features : List String
  medians : List (String × Val)
  threshold : ℚ
  rf : List Val → ℚ
  sq : ℚ → ℚ
  lg : ℚ → ℚ

/-- The per-row body of `_prepare` before the batch-median fill:
coerce (identity on already-numeric-or-missing cells), derive, align to the
configured feature order, replace `±inf` by NaN (folded into `deriveRow`),
fill from the precomputed feature medians. -/
def prepRow (E : ModelEnv) (cols : List String) (r : Record) : List Val :=
  fillMedRow E.medians E.features
    (alignRow E.features (deriveCols cols) (deriveRow E.sq E.lg cols r))

/-- `_prepare` on a list-of-dicts payload. -/
def prepare (E : ModelEnv) (recs : List Record) : List (List Val) :=
  let cols := colsUnion recs
  fillBatchMedian E.features.length (recs.map (prepRow E cols))

/-! ### Prediction (`predict_one`, `predict_batch`) -/

/-- Result shape of `predict_one`. -/
structure PredOut where
  probability : ℚ
  label : ℕ
  threshold : ℚ
  deriving DecidableEq

/-- `float(THRESHOLD if threshold is None else threshold)`. -/
def effThreshold (E : ModelEnv) (t : Option ℚ) : ℚ :=
  match t with
  | some q => q
  | none => E.threshold

/-- `predict_one`: prepare a single-record batch, read the positive-class
probability, compare against the effective threshold. -/
def predict_one (E : ModelEnv) (rec : Record) (t : Option ℚ) : PredOut :=
  let X := prepare E [rec]
  let p := E.rf (X.getD 0 [])
  let thr := effThreshold E t
  ⟨p, if qle thr p then 1 else 0, thr⟩

/-- One output row of `predict_batch`: the prepared features plus the
`probability` and `label` columns. -/
structure BatchRow where
  x : List Val
  probability : ℚ
  label : ℕ
  deriving DecidableEq

/-- `predict_batch` on a list-of-dicts payload. -/
def predict_batch (E : ModelEnv) (recs : List Record) (t : Option ℚ) :
    List BatchRow :=
  let X := prepare E recs
  let thr := effThreshold E t
  X.map fun row => ⟨row, E.rf row, if qle thr (E.rf row) then 1 else 0⟩

/-! ### Domain mapping adapter (`app/predictor_adapter.py`) -/

/-- The static caller-facing → internal feature-name table `APP_TO_KOI`. -/
def APP_TO_KOI : List (String × String) :=
  [("orbital_period", "koi_period"),
   ("transit_duration", "koi_duration"),
   ("transit_depth", "koi_depth"),
   ("stellar_effective_temperature", "koi_steff"),
   ("planetary_radius", "koi_prad"),
   ("stellar_radius", "koi_srad"),
   ("equilibrium_temperature", "koi_teq"),
   ("impact_parameter", "koi_impact")]

/-- The payload-building loop of `predict_with_kepler_model`: for each
table pair, copy the caller's value (when the caller supplies the key)
under the internal name.  Nothing else enters the payload. -/
def buildPayload (tbl : List (String × String)) (features : Record) : Record :=
  tbl.filterMap fun ak => (alookup ak.1 features).map fun v => (ak.2, v)

/-- The `details` dict of the caller-facing result. -/
structure AppDetails where
  probability_confirmed : ℚ
  probability_candidate : ℚ
  probability_false_positive : ℚ
  deriving DecidableEq

/-- Caller-facing result triple of `predict_with_kepler_model`. -/
structure AppResult where
  prediction : String
  confidence : ℚ
  details : AppDetails
  deriving DecidableEq

/-- `predict_with_kepler_model`: translate names, call `predict_one` with
no threshold override, and post-process into the three-probability shape. -/
def predict_with_kepler_model (E : ModelEnv) (features : Record) : AppResult :=
  let payload := buildPayload APP_TO_KOI features
  let r := predict_one E payload none
  let p := r.probability
  let y := r.label
  ⟨if y = 1 then "CONFIRMED" else "FALSE_POSITIVE",
   if y = 1 then p else qsub 1 p,
   ⟨p, 0, qsub 1 p⟩⟩

/-- An `ExoplanetCandidate` row as the adapter reads it: a primary key, the
`additional_data` JSON mapping (numeric-or-missing values; the handful of
string-valued metadata fields the adapter merely copies through are modelled
in the same numeric-or-missing domain, which no claim inspects), and the
eight structured model fields the fallback chain consults. -/
structure Candidate where
  id : ℕ
  additional_data : List (String × Val)
  orbital_period : Val
  transit_duration : Val
  transit_depth : Val
  stellar_effective_temperature : Val
  planetary_radius : Val
  stellar_radius : Val
  equilibrium_temperature : Val
  impact_parameter : Val

/-- `ad.get(k)`: a missing key reads as `None`. -/
def adGet (c : Candidate) (k : String) : Val :=
  match alookup k c.additional_data with
  | some v => v
  | none => none

/-- The fallback chain of `batch_probability_from_candidates`, in source
order: internal key paired with the structured model field used when
`additional_data` lacks the key. -/
def candFallbacks (c : Candidate) : List (String × Val) :=
  [("koi_period", c.orbital_period),
   ("koi_duration", c.transit_duration),
   ("koi_depth", c.transit_depth),
   ("koi_steff", c.stellar_effective_temperature),
   ("koi_prad", c.planetary_radius),
   ("koi_srad", c.stellar_radius),
   ("koi_teq", c.equilibrium_temperature),
   ("koi_impact", c.impact_parameter)]

/-- Payload extraction for one candidate: values present in
`additional_data` under internal names first, then the structured-field
fallbacks for internal names still absent whose field is not `None`. -/
def candPayload (c : Candidate) : Record :=
  let p1 := APP_TO_KOI.filterMap fun ak =>
    (alookup ak.2 c.additional_data).map fun v => (ak.2, v)
  let p2 := (candFallbacks c).filterMap fun kf =>
    if alookup kf.1 p1 = none ∧ kf.2.isSome then some kf else none
  p1 ++ p2

/-- The metadata dict built for one candidate (`metas.append({...})`). -/
def metaOf (c : Candidate) : List (String × Val) :=
  [("object_id", adGet c "object_id"),
   ("kepoi_name", adGet c "kepoi_name"),
   ("kepler_name", adGet c "kepler_name"),
   ("kepid", adGet c "kepid"),
   ("koi_disposition", adGet c "koi_disposition"),
   ("koi_period", adGet c "koi_period"),
   ("koi_duration", adGet c "koi_duration"),
   ("koi_depth", adGet c "koi_depth"),
   ("koi_model_snr", adGet c "koi_model_snr"),
   ("duty_cycle", adGet c "duty_cycle"),
   ("koi_prad", adGet c "koi_prad")]

/-- One output dict of `batch_probability_from_candidates`. -/
structure Entry where
  candidate_id : ℕ
  meta : List (String × Val)
  probability_confirmed : ℚ
  probability_candidate : ℚ
  probability_false_positive : ℚ
  label : String
  probability : ℚ

/-- The sort key relation of `out.sort(key=lambda x: x["probability"])`. -/
def entryLE (a b : Entry) : Prop := qle a.probability b.probability

instance (a b : Entry) : Decidable (entryLE a b) :=
  inferInstanceAs (Decidable (qle _ _))

instance : IsTotal Entry entryLE :=
  ⟨fun a b => Int.le_total (a.probability.num * b.probability.den)
    (b.probability.num * a.probability.den)⟩

instance : IsTrans Entry entryLE :=
  ⟨fun _ _ _ hab hbc =>
    Rat.le_def.mp (le_trans (Rat.le_def.mpr hab) (Rat.le_def.mpr hbc))⟩

/-- The record/meta pairs surviving the extraction loop (`continue` drops a
candidate whose payload stayed empty). -/
def predPairs (cands : List Candidate) : List (Record × (ℕ × List (String × Val))) :=
  cands.filterMap fun c =>
    let pl := candPayload c
    if pl = [] then none else some (pl, (c.id, metaOf c))

/-- One decorated output dict of `batch_probability_from_candidates`
(the body of its `for i in range(len(df))` loop). -/
def batchEntry (rm : BatchRow × (ℕ × List (String × Val))) : Entry :=
  { candidate_id := rm.2.1
    meta := rm.2.2
    probability_confirmed := rm.1.probability
    probability_candidate := 0
    probability_false_positive := qsub 1 rm.1.probability
    label := if rm.1.label = 1 then "CONFIRMED" else "FALSE_POSITIVE"
    probability := if rm.1.label = 1 then rm.1.probability
      else qsub 1 rm.1.probability }

/-- The decorated output dicts of the batch loop, in input order. -/
def batchOuts (E : ModelEnv) (cands : List Candidate) : List Entry :=
  ((predict_batch E ((predPairs cands).map Prod.fst) none).zip
    ((predPairs cands).map Prod.snd)).map batchEntry

/-- `batch_probability_from_candidates` body (see `batchEntry`). -/
def batch_probability_from_candidates (E : ModelEnv) (cands : List Candidate) :
    List Entry :=
  if (predPairs cands).isEmpty then []
  else List.insertionSort entryLE (batchOuts E cands)

/-! ### Training (`mlapp/training.py`) -/

/-- The eleven required base feature columns (`BASE_FEATURES`). -/
def BASE_FEATURES : List String :=
  ["koi_period", "koi_duration", "koi_depth", "koi_steff", "koi_kepmag",
   "koi_prad", "koi_slogg", "koi_srad", "koi_teq", "koi_model_snr",
   "koi_impact"]

/-- The five derived feature columns (`DERIVED_FEATURES`). -/
def DERIVED_FEATURES : List String :=
  ["duty_cycle", "depth_frac", "rprstar_est", "log_period", "log_depth"]

/-- Descending sort, used for the distinct-score thresholds of
`precision_recall_curve`. -/
def sortDescQ (l : List ℚ) : List ℚ := List.insertionSort (fun a b => qle b a) l

/-- Collapse adjacent duplicates of a sorted list (`np.unique` composed
with the sort above). -/
def uniqSorted : List ℚ → List ℚ
  | [] => []
  | [x] => [x]
  | x :: y :: rest =>
    if x = y then uniqSorted (y :: rest) else x :: uniqSorted (y :: rest)

/-- One point of sklearn's `_binary_clf_curve`: a candidate threshold with
the counts of true and false positives of the classifier `score ≥ thr`. -/
structure PRPoint where
  thr : ℚ
  tp : ℕ
  fp : ℕ
  deriving DecidableEq

/-- `_binary_clf_curve(y_true, probas_pred)`: distinct scores in decreasing
order, with cumulative true/false positive counts. -/
def clfPoints (y : List ℤ) (p : List ℚ) : List PRPoint :=
  (uniqSorted (sortDescQ p)).map fun t =>
    ⟨t,
     ((y.zip p).filter fun q => decide (qle t q.2) && decide (q.1 = 1)).length,
     ((y.zip p).filter fun q => decide (qle t q.2) && decide (q.1 ≠ 1)).length⟩

/-- `sklearn.metrics.precision_recall_curve`: truncate the curve once full
recall is reached (`tps.searchsorted(tps[-1])`), reverse to ascending
thresholds, and append the conventional final point `(precision, recall) =
(1, 0)`.  Returns `(precision, recall, thresholds)`; `precision` and
`recall` have one more entry than `thresholds`. -/
def prCurve (y : List ℤ) (p : List ℚ) : List ℚ × List ℚ × List ℚ :=
  let pts := clfPoints y p
  let total := (y.filter fun v => decide (v = 1)).length
  let lastInd := pts.findIdx fun pt => decide (pt.tp = total)
  let kept := (pts.take (lastInd + 1)).reverse
  (kept.map (fun pt => Rat.divInt (pt.tp : ℤ) ((pt.tp : ℤ) + (pt.fp : ℤ))) ++ [1],
   kept.map (fun pt => if total = 0 then 1 else Rat.divInt (pt.tp : ℤ) (total : ℤ)) ++ [0],
   kept.map PRPoint.thr)

/-- numpy boolean-mask indexing `arr[mask]`: defined only when the mask
length matches the array length, otherwise an `IndexError` (`none`). -/
def boolIndex (l : List α) (m : List Bool) : Option (List α) :=
  if l.length = m.length then some (((l.zip m).filter Prod.snd).map Prod.fst)
  else none

/-- `np.argmax`: index of the first occurrence of the maximum. -/
def argmaxQAux : List ℚ → ℕ → ℕ → ℚ → ℕ
  | [], _, best, _ => best
  | x :: xs, i, best, bv =>
    if qlt bv x then argmaxQAux xs (i + 1) i x else argmaxQAux xs (i + 1) best bv

/-- `np.argmax` over a list of rationals (0 on the empty list). -/
def argmaxQ : List ℚ → ℕ
  | [] => 0
  | x :: xs => argmaxQAux xs 1 0 x

/-- Python `str.strip` whitespace test. -/
def isWS (c : Char) : Bool :=
  c = ' ' || c = '\t' || c = '\n' || c = '\r'

/-- Python `str.strip()` (kernel-reducible reimplementation). -/
def strStrip (s : String) : String :=
  String.mk (((s.data.dropWhile isWS).reverse.dropWhile isWS).reverse)

/-- Python `str.lower()` (kernel-reducible reimplementation). -/
def strLower (s : String) : String := String.mk (s.data.map Char.toLower)

/-- List prefix test by structural recursion. -/
def startsList : List Char → List Char → Bool
  | [], _ => true
  | _ :: _, [] => false
  | c :: cs, d :: ds => c = d && startsList cs ds

/-- Python `str.startswith` (kernel-reducible reimplementation). -/
def strStarts (s pre : String) : Bool := startsList pre.data s.data

/-- Split a character list at every occurrence of `c`. -/
def splitChar (c : Char) : List Char → List (List Char)
  | [] => [[]]
  | x :: xs =>
    match splitChar c xs with
    | [] => [[x]]
    | h :: t => if x = c then [] :: h :: t else (x :: h) :: t

/-- Python `s.split(sep)` on a one-character separator. -/
def strSplit (c : Char) (s : String) : List String :=
  (splitChar c s.data).map String.mk

/-- Rejoin with a one-character separator (`maxsplit=1` semantics are
recovered by joining the tail back together). -/
def strJoin (c : Char) : List String → String
  | [] => ""
  | [x] => x
  | x :: y :: rest => String.mk (x.data ++ c :: (strJoin c (y :: rest)).data)

/-- Parse the decimal literal accepted in `target_precision:<x>`
(`float(...)`, restricted to plain sign/digits/point strings — the only
shape the callers use; anything else fails like `float` raising). -/
def digitsToNat : List Char → Option ℕ
  | [] => none
  | cs =>
    cs.foldl
      (fun acc c =>
        acc.bind fun n => if c.isDigit then some (n * 10 + (c.toNat - 48)) else none)
      (some 0)

/-- Decimal parser for threshold targets (see `digitsToNat`). -/
def parseDec (s : String) : Option ℚ :=
  let core := fun (t : List Char) (sign : ℤ) =>
    match splitChar '.' t with
    | [a] => (digitsToNat a).map fun n => Rat.divInt (sign * n) 1
    | [a, b] =>
      (digitsToNat a).bind fun n =>
        (digitsToNat b).map fun f =>
          Rat.divInt (sign * (n * 10 ^ b.length + f)) (10 ^ b.length)
    | _ => none
  if strStarts s "-" then core (s.data.drop 1) (-1) else core s.data 1

/-- The `threshold_mode` argument: a float, `None`, or a policy string. -/
inductive TMode where
  | num (q : ℚ)
  | noneM
  | strM (s : String)

/-- The named threshold constant `0.32`. -/
def thrHighRecall : ℚ := Rat.divInt 32 100

/-- The named threshold constant `0.50`. -/
def thrBalanced : ℚ := Rat.divInt 50 100

/-- The named threshold constant `0.60`. -/
def thrHighPrecision : ℚ := Rat.divInt 60 100

/-- The default precision target `0.90`. -/
def defaultTarget : ℚ := Rat.divInt 90 100

/-- `_threshold_from_mode` (`mlapp/training.py`).  `none` models a raised
exception (`ValueError` on bad input, numpy `IndexError` from mismatched
boolean-mask indexing, or an out-of-range integer index). -/
def thresholdFromMode (mode : TMode) (yv : Option (List ℤ)) (pv : Option (List ℚ)) :
    Option ℚ :=
  match mode with
  | .num q => some q
  | .noneM => some thrHighRecall
  | .strM s =>
    let m := strLower (strStrip s)
    if m = "high_recall" then some thrHighRecall
    else if m = "balanced" then some thrBalanced
    else if m = "high_precision" then some thrHighPrecision
    else if strStarts m "target_precision" then
      let target :=
        match strSplit ':' m with
        | [] => defaultTarget
        | [_] => defaultTarget
        | _ :: rest =>
          match parseDec (strJoin ':' rest) with
          | some q => q
          | none => defaultTarget
      match yv, pv with
      | some y, some p =>
        let c := prCurve y p
        let precInit := c.1.dropLast
        let mask := precInit.map fun q => decide (qle target q)
        if mask.any id then
          match boolIndex c.2.1.dropLast mask with
          | none => none
          | some recMasked =>
            match boolIndex c.2.2.dropLast mask with
            | none => none
            | some thrMasked => thrMasked.get? (argmaxQ recMasked)
        else c.2.2.dropLast.get? (argmaxQ precInit)
      | _, _ => none
    else none

/-! ### Train/validation/test split (`train_val_test_split_frame`) -/

/-- `Series.nunique()` on an integer label column. -/
def nuniqueZ (l : List ℤ) : ℕ := l.dedup.length

/-- `astype(int)` on a label cell (labels are integral wherever the claims
exercise the split; a missing label would raise in pandas and is mapped to
0 here, a value no claim relies on). -/
def intOfVal (v : Val) : ℤ :=
  match v with
  | some q => q.num / (q.den : ℤ)
  | none => 0

/-- The stratify argument computed before each `train_test_split` call:
the label column, when it exists and shows exactly two classes. -/
def stratArg (hasLabel : Bool) (labels : List ℤ) : Option (List ℤ) :=
  if hasLabel = true ∧ nuniqueZ labels = 2 then some labels else none

/-- `train_val_test_split_frame`, parameterised by the library splitter
`tts rows testSize seed stratify = (kept, test)`. -/
def train_val_test_split_frame
    (tts : List α → ℚ → ℕ → Option (List ℤ) → List α × List α)
    (rows : List α) (hasLabel : Bool) (lab : α → ℤ) (seed : ℕ) :
    List α × List α × List α :=
  if rows.isEmpty then ([], [], [])
  else
    let s1 := stratArg hasLabel (rows.map lab)
    let pr := tts rows (Rat.divInt 4 10) seed s1
    let s2 := stratArg hasLabel (pr.2.map lab)
    let pv := tts pr.2 (Rat.divInt 5 10) seed s2
    (pr.1, pv.1, pv.2)

/-- A reference splitter satisfying the documented `train_test_split`
contract: the test part is the first `⌈testSize·n⌉` rows, the kept part the
rest (used to witness the split theorems). -/
def ttsTake (rows : List α) (testSize : ℚ) (_seed : ℕ)
    (_strat : Option (List ℤ)) : List α × List α :=
  let m := ⌈testSize * (rows.length : ℚ)⌉₊
  (rows.drop m, rows.take m)

/-! ### Retraining entry point (`retrain_from_csv`) -/

/-- A loaded data-frame: its columns and its rows. -/
structure Frame where
  cols : List String
  rows : List Record

/-- Effects `retrain_from_csv` can perform on the artifact store, in order:
`_ensure_dirs` (creates the two parent directories, touching no version
content), `_save_artifacts` into the timestamped version directory, and the
optional `_activate_version` copy into `current`. -/
inductive REff where
  | mkdirs
  | save (ts : String)
  | activateEff (ts : String)
  deriving DecidableEq

/-- The error outcomes of `retrain_from_csv`.  `fileNotFound` is the
`FileNotFoundError` raise, `labelMissing` the `ValueError` for a dataset
without the label column, `missingCols` the `ValueError` listing absent
base features, `thresholdErr` an exception escaping
`_threshold_from_mode`. -/
inductive RErr where
  | fileNotFound
  | labelMissing
  | missingCols (missing : List String)
  | thresholdErr
  deriving DecidableEq

/-- `_prepare_training_frame`: derive, check the eleven base columns
(raising with the exact missing list), align to the present base+derived
columns, and impute with the batch medians (training has no precomputed
medians). -/
def prepTrainingFrame (f : Frame) : Except (List String) (List (List Val) × List String) :=
  let dcols := deriveCols f.cols
  let ordered := (BASE_FEATURES ++ DERIVED_FEATURES).filter fun c => c ∈ dcols
  let missing := BASE_FEATURES.filter fun c => c ∉ dcols
  if missing.isEmpty then
    let derived := f.rows.map (deriveRow id id f.cols)
    let X := derived.map (alignRow ordered dcols)
    Except.ok (fillBatchMedian ordered.length X, ordered)
  else Except.error missing

/-- Split a frame by rows, keeping the column list. -/
def splitFrame (tts : List Record → ℚ → ℕ → Option (List ℤ) → List Record × List Record)
    (f : Frame) (labelCol : String) (seed : ℕ) : Frame × Frame × Frame :=
  let hasLabel := decide (labelCol ∈ f.cols)
  let lab := fun r => intOfVal (cellR r labelCol)
  let t := train_val_test_split_frame tts f.rows hasLabel lab seed
  (⟨f.cols, t.1⟩, ⟨f.cols, t.2.1⟩, ⟨f.cols, t.2.2⟩)

/-- Input state of one `retrain_from_csv` call: whether the path exists,
the frame the reader would produce, and the call arguments. -/
structure RetrainIn where
  fileExists : Bool
  df : Frame
  labelCol : String
  mode : TMode
  activate : Bool
  ts : String

/-- Successful-outcome summary (the `TrainResult` dataclass fields the
claims consult). -/
structure TrainResultM where
  versionTs : String
  threshold : ℚ
  features : List String
  deriving DecidableEq

/-- `retrain_from_csv` as a step sequence over the artifact store,
parameterised by the library splitter and the classifier trainer
(`RandomForestClassifier.fit` ∘ `predict_proba`, an opaque pure function of
the training matrix and labels).  The first component records the
filesystem effects in order; an exception aborts the run with the effects
performed so far. -/
def retrain_from_csv
    (tts : List Record → ℚ → ℕ → Option (List ℤ) → List Record × List Record)
    (fit : List (List Val) → List ℤ → List Val → ℚ)
    (inp : RetrainIn) : List REff × Except RErr TrainResultM :=
  let effs := [REff.mkdirs]
  if inp.fileExists = false then (effs, .error .fileNotFound)
  else if inp.labelCol ∉ inp.df.cols then (effs, .error .labelMissing)
  else
    let t := splitFrame tts inp.df inp.labelCol 42
    match prepTrainingFrame t.1 with
    | .error m => (effs, .error (.missingCols m))
    | .ok (Xtr, feats) =>
      match prepTrainingFrame t.2.1 with
      | .error m => (effs, .error (.missingCols m))
      | .ok (Xval, _) =>
        match prepTrainingFrame t.2.2 with
        | .error m => (effs, .error (.missingCols m))
        | .ok (_, _) =>
          let yTr := t.1.rows.map fun r => intOfVal (cellR r inp.labelCol)
          let yVal := t.2.1.rows.map fun r => intOfVal (cellR r inp.labelCol)
          let model := fit Xtr yTr
          let probaVal := Xval.map model
          match thresholdFromMode inp.mode (some yVal) (some probaVal) with
          | none => (effs, .error .thresholdErr)
          | some thr =>
            (effs ++ [REff.save inp.ts] ++
              (if inp.activate then [REff.activateEff inp.ts] else []),
             .ok ⟨inp.ts, thr, feats⟩)

/-! ### The version store (`_save_artifacts` / `models_store/versions`) -/

/-- The two files a version directory holds; their contents are abstract. -/
structure VFiles where
  model : ℕ
  config : ℕ
  deriving DecidableEq

/-- A version store: association of timestamp directory names to files. -/
abbrev Store : Type := List (String × VFiles)

/-- One `_save_artifacts(version_dir, …)` call:
`version_dir.mkdir(parents=True, exist_ok=True)` followed by `dump`/`json.dump`,
which overwrite the directory's two files when the directory already
exists (its entry is replaced in place), and create the directory at the
end of the store otherwise. -/
def storeSave (s : Store) (ts : String) (f : VFiles) : Store :=
  match s with
  | [] => [(ts, f)]
  | p :: rest => if p.1 = ts then (ts, f) :: rest else p :: storeSave rest ts f

/-- A sequence of training runs, each persisting into its timestamp. -/
def storeRun (s : Store) (runs : List (String × VFiles)) : Store :=
  runs.foldl (fun acc r => storeSave acc r.1 r.2) s

/-! ### Spec-side formulas for the derived features (used to check C3 as a
refinement of the specification text) -/

/-- Modelled from the spec: duty cycle = transit duration divided by
(orbital period × 24), any non-finite result (division by zero included)
treated as missing. -/
def dutyCycleSpec (period duration : Val) : Val :=
  match period, duration with
  | some p, some d => if p = 0 then none else some (d / (p * 24))
  | _, _ => none

/-- Modelled from the spec: fractional depth = max(transit depth, 1e-9) × 1e-6. -/
def depthFracSpec (depth : Val) : Val :=
  depth.map fun x => max x (1 / 10 ^ 9) * (1 / 10 ^ 6)

/-- Modelled from the spec: estimated radius ratio = square root of the
fractional depth. -/
def rprstarSpec (sq : ℚ → ℚ) (depth : Val) : Val :=
  (depthFracSpec depth).map sq

/-- Modelled from the spec: log-period = log10 of the period floored at 1e-9. -/
def logPeriodSpec (lg : ℚ → ℚ) (period : Val) : Val :=
  period.map fun x => lg (max x (1 / 10 ^ 9))

/-- Modelled from the spec: log-depth = log10 of the depth floored at 1e-9. -/
def logDepthSpec (lg : ℚ → ℚ) (depth : Val) : Val :=
  depth.map fun x => lg (max x (1 / 10 ^ 9))

/-! ### Concrete instances used by witnesses and counterexamples -/

/-- A concrete model environment: the canonical 16-feature configuration,
no precomputed medians, the default threshold, a constant-probability
forest, and identity stand-ins for the opaque numeric primitives. -/
def envW : ModelEnv :=
  ⟨BASE_FEATURES ++ DERIVED_FEATURES, [], thrHighRecall,
    fun _ => Rat.divInt 1 2, id, id⟩

/-- A concrete complete base-feature record. -/
def recW : Record :=
  [("koi_period", some 10), ("koi_duration", some 2), ("koi_depth", some 100),
   ("koi_steff", some 5700), ("koi_kepmag", some 14), ("koi_prad", some 2),
   ("koi_slogg", some 4), ("koi_srad", some 1), ("koi_teq", some 500),
   ("koi_model_snr", some 20), ("koi_impact", some (Rat.divInt 1 2))]

/-- A label-less, base-feature-less frame used by retraining witnesses. -/
def frameW : Frame := ⟨["koi_period"], []⟩

/-- A retraining input whose file does not exist. -/
def inpW : RetrainIn :=
  ⟨false, frameW, "label_true", TMode.noneM, false, "20240101T000000Z"⟩

/-- A constant classifier trainer standing in for the opaque forest fit. -/
def fitW : List (List Val) → List ℤ → List Val → ℚ := fun _ _ _ => 0

/-- Does the precomputed-medians table hold a finite value for column `c`? -/
def goodMed (med : List (String × Val)) (c : String) : Bool :=
  match alookup c med with
  | some (some _) => true
  | _ => false

/-- A classifier that reads the prepared `koi_depth` cell (index 2 of the
base-feature order), used to separate batch from single-record pipelines. -/
def rfC2 : List Val → ℚ := fun row =>
  match row.getD 2 none with
  | some _ => Rat.divInt 9 10
  | none => Rat.divInt 1 10

/-- The environment of the C2 counterexample: canonical features, an empty
medians table (the module's documented fallback when the reference dataset
cannot be read), default threshold. -/
def envC2 : ModelEnv :=
  ⟨BASE_FEATURES ++ DERIVED_FEATURES, [], thrHighRecall, rfC2, id, id⟩

/-- A record with only a period. -/
def recC2a : Record := [("koi_period", some 1)]

/-- A record with period and depth. -/
def recC2b : Record := [("koi_period", some 2), ("koi_depth", some 4)]

/-- A medians table covering every configured feature. -/
def medsW : List (String × Val) :=
  (BASE_FEATURES ++ DERIVED_FEATURES).map fun c => (c, some 1)

/-- An environment with complete precomputed medians. -/
def envM : ModelEnv :=
  ⟨BASE_FEATURES ++ DERIVED_FEATURES, medsW, thrHighRecall,
    fun _ => Rat.divInt 1 2, id, id⟩

/-! ## Theorems -/

theorem q_num_div_den (a : ℚ) : (a.num : ℚ) / (a.den : ℚ) = a := by
  have h := Rat.num_divInt_den a
  rw [Rat.divInt_eq_div] at h
  exact_mod_cast h

theorem q_num_eq (a : ℚ) : (a.num : ℚ) = a * (a.den : ℚ) :=
  (div_eq_iff (by exact_mod_cast a.den_pos.ne')).mp (q_num_div_den a)

theorem qmul_eq (a b : ℚ) : qmul a b = a * b := by
  have had : (a.den : ℚ) ≠ 0 := by exact_mod_cast a.den_pos.ne'
  have hbd : (b.den : ℚ) ≠ 0 := by exact_mod_cast b.den_pos.ne'
  rw [qmul, Rat.divInt_eq_div]
  push_cast
  field_simp
  rw [q_num_eq a, q_num_eq b]
  ring

theorem qadd_eq (a b : ℚ) : qadd a b = a + b := by
  have had : (a.den : ℚ) ≠ 0 := by exact_mod_cast a.den_pos.ne'
  have hbd : (b.den : ℚ) ≠ 0 := by exact_mod_cast b.den_pos.ne'
  rw [qadd, Rat.divInt_eq_div]
  push_cast
  field_simp
  rw [q_num_eq a, q_num_eq b]
  ring

theorem qsub_eq (a b : ℚ) : qsub a b = a - b := by
  have had : (a.den : ℚ) ≠ 0 := by exact_mod_cast a.den_pos.ne'
  have hbd : (b.den : ℚ) ≠ 0 := by exact_mod_cast b.den_pos.ne'
  rw [qsub, Rat.divInt_eq_div]
  push_cast
  field_simp
  rw [q_num_eq a, q_num_eq b]
  ring

theorem qdiv_eq (a b : ℚ) : qdiv a b = a / b := by
  rcases eq_or_ne b 0 with hb | hb
  · subst hb
    show Rat.divInt _ ((a.den : ℤ) * (0 : ℚ).num) = _
    norm_num
  · have had : (a.den : ℚ) ≠ 0 := by exact_mod_cast a.den_pos.ne'
    have hbd : (b.den : ℚ) ≠ 0 := by exact_mod_cast b.den_pos.ne'
    have hbn : (b.num : ℚ) ≠ 0 := by
      exact_mod_cast fun h => hb (by rwa [Rat.num_eq_zero] at h)
    rw [qdiv, Rat.divInt_eq_div]
    push_cast
    field_simp
    rw [q_num_eq a, q_num_eq b]
    ring

theorem qle_iff (a b : ℚ) : qle a b ↔ a ≤ b := (Rat.le_def).symm

theorem qlt_iff (a b : ℚ) : qlt a b ↔ a < b := (Rat.lt_def).symm

theorem qmax_eq (a b : ℚ) : qmax a b = max a b := by
  rw [qmax, max_def]
  rcases Decidable.em (qle a b) with h | h
  · rw [if_pos h, if_pos ((qle_iff a b).mp h)]
  · rw [if_neg h, if_neg (fun h2 => h ((qle_iff a b).mpr h2))]


/-! ### Helper lemmas -/

theorem prepare_length (E : ModelEnv) (recs : List Record) :
    (prepare E recs).length = recs.length := by
  simp [prepare, fillBatchMedian]

theorem predict_batch_length (E : ModelEnv) (recs : List Record) (t : Option ℚ) :
    (predict_batch E recs t).length = recs.length := by
  simp [predict_batch, prepare_length]

theorem predPairs_length (cands : List Candidate) :
    (predPairs cands).length = (cands.filter fun c => candPayload c ≠ []).length := by
  induction cands with
  | nil => rfl
  | cons c rest ih =>
    by_cases h : candPayload c = []
    · simpa [predPairs, List.filterMap_cons, h] using ih
    · simpa [predPairs, List.filterMap_cons, h] using ih

theorem predict_one_label_cases (E : ModelEnv) (rec : Record) (t : Option ℚ) :
    (predict_one E rec t).label = 0 ∨ (predict_one E rec t).label = 1 := by
  have hlab : (predict_one E rec t).label =
      if qle (effThreshold E t) (E.rf ((prepare E [rec]).getD 0 [])) then 1 else 0 := rfl
  by_cases h : qle (effThreshold E t) (E.rf ((prepare E [rec]).getD 0 []))
  · exact Or.inr (by rw [hlab, if_pos h])
  · exact Or.inl (by rw [hlab, if_neg h])

/-! ### C1 -/

/-- C1: for every record and every threshold override in `[0,1]` (or no
override), `predict_one` returns a probability in `[0,1]` (given sklearn's
guarantee on `predict_proba`), a label in `{0,1}`, the effective threshold
(the override when given, the loaded configuration's threshold otherwise),
and `label = 1` exactly when `probability ≥ threshold`. -/
theorem C1_predict_one_contract (E : ModelEnv)
    (hRF : ∀ x, 0 ≤ E.rf x ∧ E.rf x ≤ 1)
    (rec : Record) (t : Option ℚ)
    (_ht : ∀ q ∈ t, 0 ≤ q ∧ q ≤ 1) :
    0 ≤ (predict_one E rec t).probability ∧
      (predict_one E rec t).probability ≤ 1 ∧
      ((predict_one E rec t).label = 0 ∨ (predict_one E rec t).label = 1) ∧
      (∀ q, t = some q → (predict_one E rec t).threshold = q) ∧
      (t = none → (predict_one E rec t).threshold = E.threshold) ∧
      ((predict_one E rec t).label = 1 ↔
        (predict_one E rec t).threshold ≤ (predict_one E rec t).probability) := by
  have hp := hRF ((prepare E [rec]).getD 0 [])
  have hlab : (predict_one E rec t).label =
      if qle (effThreshold E t) (E.rf ((prepare E [rec]).getD 0 [])) then 1 else 0 := rfl
  have hprob : (predict_one E rec t).probability =
      E.rf ((prepare E [rec]).getD 0 []) := rfl
  have hthr : (predict_one E rec t).threshold = effThreshold E t := rfl
  refine ⟨hprob ▸ hp.1, hprob ▸ hp.2, ?_, ?_, ?_, ?_⟩
  · by_cases h : qle (effThreshold E t) (E.rf ((prepare E [rec]).getD 0 []))
    · exact Or.inr (by rw [hlab, if_pos h])
    · exact Or.inl (by rw [hlab, if_neg h])
  · intro q hq
    rw [hthr, hq]
    rfl
  · intro hq
    rw [hthr, hq]
    rfl
  · rw [hlab, hprob, hthr]
    by_cases h : qle (effThreshold E t) (E.rf ((prepare E [rec]).getD 0 []))
    · rw [if_pos h]
      exact iff_of_true rfl ((qle_iff _ _).mp h)
    · rw [if_neg h]
      exact iff_of_false (by norm_num) (fun hle => h ((qle_iff _ _).mpr hle))

/-- C1 witness: the contract evaluated at a concrete environment, record
and threshold override. -/
theorem C1_witness :
    (∀ x : List Val, 0 ≤ envW.rf x ∧ envW.rf x ≤ 1) ∧
    (∀ q ∈ some (Rat.divInt 1 2), 0 ≤ q ∧ q ≤ 1) ∧
    (0 ≤ (predict_one envW recW (some (Rat.divInt 1 2))).probability ∧
      (predict_one envW recW (some (Rat.divInt 1 2))).probability ≤ 1 ∧
      ((predict_one envW recW (some (Rat.divInt 1 2))).label = 0 ∨
        (predict_one envW recW (some (Rat.divInt 1 2))).label = 1) ∧
      (∀ q, some (Rat.divInt 1 2) = some q →
        (predict_one envW recW (some (Rat.divInt 1 2))).threshold = q) ∧
      (some (Rat.divInt 1 2) = none →
        (predict_one envW recW (some (Rat.divInt 1 2))).threshold = envW.threshold) ∧
      ((predict_one envW recW (some (Rat.divInt 1 2))).label = 1 ↔
        (predict_one envW recW (some (Rat.divInt 1 2))).threshold ≤
          (predict_one envW recW (some (Rat.divInt 1 2))).probability)) := by
  have hrf : ∀ x : List Val, 0 ≤ envW.rf x ∧ envW.rf x ≤ 1 := by
    intro x
    constructor
    · show (0 : ℚ) ≤ Rat.divInt 1 2
      rw [Rat.divInt_eq_div]
      norm_num
    · show (Rat.divInt 1 2 : ℚ) ≤ 1
      rw [Rat.divInt_eq_div]
      norm_num
  have hth : ∀ q ∈ some (Rat.divInt 1 2), 0 ≤ q ∧ q ≤ 1 := by
    intro q hq
    rw [Option.mem_def, Option.some_inj] at hq
    subst hq
    constructor <;> · rw [Rat.divInt_eq_div]; norm_num
  exact ⟨hrf, hth, C1_predict_one_contract envW hrf recW _ hth⟩

/-! ### C9 -/

/-- C9: the caller-facing result maps label 1 to `"CONFIRMED"` and label 0
to `"FALSE_POSITIVE"`, reports confidence in `[0,1]` equal to the positive
probability for label 1 and its complement for label 0, reports
`probability_false_positive = 1 - probability_confirmed`, and always
reports `probability_candidate = 0`. -/
theorem C9_adapter_output (E : ModelEnv)
    (hRF : ∀ x, 0 ≤ E.rf x ∧ E.rf x ≤ 1) (fs : Record) :
    ((predict_with_kepler_model E fs).prediction = "CONFIRMED" ↔
      (predict_one E (buildPayload APP_TO_KOI fs) none).label = 1) ∧
    ((predict_with_kepler_model E fs).prediction = "FALSE_POSITIVE" ↔
      (predict_one E (buildPayload APP_TO_KOI fs) none).label = 0) ∧
    0 ≤ (predict_with_kepler_model E fs).confidence ∧
    (predict_with_kepler_model E fs).confidence ≤ 1 ∧
    ((predict_one E (buildPayload APP_TO_KOI fs) none).label = 1 →
      (predict_with_kepler_model E fs).confidence =
        (predict_with_kepler_model E fs).details.probability_confirmed) ∧
    ((predict_one E (buildPayload APP_TO_KOI fs) none).label ≠ 1 →
      (predict_with_kepler_model E fs).confidence =
        1 - (predict_with_kepler_model E fs).details.probability_confirmed) ∧
    (predict_with_kepler_model E fs).details.probability_false_positive =
      1 - (predict_with_kepler_model E fs).details.probability_confirmed ∧
    (predict_with_kepler_model E fs).details.probability_candidate = 0 := by
  have hpc : (predict_with_kepler_model E fs).details.probability_confirmed =
      (predict_one E (buildPayload APP_TO_KOI fs) none).probability := rfl
  have hfp : (predict_with_kepler_model E fs).details.probability_false_positive =
      qsub 1 (predict_one E (buildPayload APP_TO_KOI fs) none).probability := rfl
  have hbound : 0 ≤ (predict_one E (buildPayload APP_TO_KOI fs) none).probability ∧
      (predict_one E (buildPayload APP_TO_KOI fs) none).probability ≤ 1 :=
    hRF ((prepare E [buildPayload APP_TO_KOI fs]).getD 0 [])
  by_cases h : (predict_one E (buildPayload APP_TO_KOI fs) none).label = 1
  · have hpred : (predict_with_kepler_model E fs).prediction = "CONFIRMED" := by
      show (if (predict_one E (buildPayload APP_TO_KOI fs) none).label = 1
        then "CONFIRMED" else "FALSE_POSITIVE") = _
      rw [if_pos h]
    have hconf : (predict_with_kepler_model E fs).confidence =
        (predict_one E (buildPayload APP_TO_KOI fs) none).probability := by
      show (if (predict_one E (buildPayload APP_TO_KOI fs) none).label = 1
        then (predict_one E (buildPayload APP_TO_KOI fs) none).probability
        else qsub 1 (predict_one E (buildPayload APP_TO_KOI fs) none).probability) = _
      rw [if_pos h]
    refine ⟨iff_of_true hpred h, iff_of_false (by rw [hpred]; decide) (by omega),
      ?_, ?_, fun _ => by rw [hconf, hpc], fun hn => absurd h hn, ?_, rfl⟩
    · rw [hconf]
      exact hbound.1
    · rw [hconf]
      exact hbound.2
    · rw [hfp, hpc, qsub_eq]
  · have hpred : (predict_with_kepler_model E fs).prediction = "FALSE_POSITIVE" := by
      show (if (predict_one E (buildPayload APP_TO_KOI fs) none).label = 1
        then "CONFIRMED" else "FALSE_POSITIVE") = _
      rw [if_neg h]
    have hlab0 : (predict_one E (buildPayload APP_TO_KOI fs) none).label = 0 := by
      have := predict_one_label_cases E (buildPayload APP_TO_KOI fs) none
      omega
    have hconf : (predict_with_kepler_model E fs).confidence =
        qsub 1 (predict_one E (buildPayload APP_TO_KOI fs) none).probability := by
      show (if (predict_one E (buildPayload APP_TO_KOI fs) none).label = 1
        then (predict_one E (buildPayload APP_TO_KOI fs) none).probability
        else qsub 1 (predict_one E (buildPayload APP_TO_KOI fs) none).probability) = _
      rw [if_neg h]
    refine ⟨iff_of_false (by rw [hpred]; decide) (fun h1 => h h1),
      iff_of_true hpred hlab0, ?_, ?_, fun h1 => absurd h1 h,
      fun _ => by rw [hconf, hpc, qsub_eq], ?_, rfl⟩
    · rw [hconf, qsub_eq]
      have := hbound.2
      linarith
    · rw [hconf, qsub_eq]
      have := hbound.1
      linarith
    · rw [hfp, hpc, qsub_eq]

/-- C9 witness: the adapter contract evaluated at a concrete environment
and feature mapping. -/
theorem C9_witness :
    (∀ x : List Val, 0 ≤ envW.rf x ∧ envW.rf x ≤ 1) ∧
    ((predict_with_kepler_model envW [("orbital_period", some 10)]).prediction =
        "CONFIRMED" ↔
      (predict_one envW (buildPayload APP_TO_KOI [("orbital_period", some 10)])
          none).label = 1) ∧
    (predict_with_kepler_model envW
        [("orbital_period", some 10)]).details.probability_candidate = 0 := by
  have hrf : ∀ x : List Val, 0 ≤ envW.rf x ∧ envW.rf x ≤ 1 := by
    intro x
    constructor
    · show (0 : ℚ) ≤ Rat.divInt 1 2
      rw [Rat.divInt_eq_div]
      norm_num
    · show (Rat.divInt 1 2 : ℚ) ≤ 1
      rw [Rat.divInt_eq_div]
      norm_num
  have h := C9_adapter_output envW hrf [("orbital_period", some 10)]
  exact ⟨hrf, h.1, h.2.2.2.2.2.2.2⟩

/-! ### C10 -/

/-- C10: `batch_probability_from_candidates` returns entries sorted
ascending by their `probability` field; candidates from which no payload
key can be extracted are omitted (yielding `[]` when none remain); and
every entry has `probability_candidate = 0` with
`probability_confirmed + probability_false_positive = 1`. -/
theorem C10_batch_candidates (E : ModelEnv) (cands : List Candidate) :
    List.Pairwise (fun a b => a.probability ≤ b.probability)
      (batch_probability_from_candidates E cands) ∧
    (∀ e ∈ batch_probability_from_candidates E cands,
      e.probability_candidate = 0 ∧
      e.probability_confirmed + e.probability_false_positive = 1) ∧
    (batch_probability_from_candidates E cands).length =
      (cands.filter fun c => candPayload c ≠ []).length ∧
    ((∀ c ∈ cands, candPayload c = []) →
      batch_probability_from_candidates E cands = []) := by
  by_cases hp : (predPairs cands).isEmpty
  · have hres : batch_probability_from_candidates E cands = [] := by
      unfold batch_probability_from_candidates
      rw [if_pos hp]
    have hlen : (cands.filter fun c => candPayload c ≠ []).length = 0 := by
      rw [← predPairs_length]
      exact List.isEmpty_iff_length_eq_zero.mp hp
    refine ⟨?_, ?_, ?_, fun _ => hres⟩
    · rw [hres]
      exact List.Pairwise.nil
    · rw [hres]
      intro e he
      cases he
    · rw [hres, hlen]
      rfl
  · have hres : batch_probability_from_candidates E cands =
        List.insertionSort entryLE (batchOuts E cands) := by
      unfold batch_probability_from_candidates
      rw [if_neg hp]
    refine ⟨?_, ?_, ?_, ?_⟩
    · rw [hres]
      exact (List.sorted_insertionSort entryLE _).imp fun h => (qle_iff _ _).mp h
    · intro e he
      rw [hres, List.mem_insertionSort] at he
      obtain ⟨rm, _, rfl⟩ := List.mem_map.mp he
      refine ⟨rfl, ?_⟩
      show rm.1.probability + qsub 1 rm.1.probability = 1
      rw [qsub_eq]
      ring
    · rw [hres, List.length_insertionSort, batchOuts, List.length_map,
        List.length_zip, predict_batch_length, List.length_map, List.length_map,
        min_self, predPairs_length]
    · intro hall
      have hnil : predPairs cands = [] := by
        unfold predPairs
        rw [List.filterMap_eq_nil_iff]
        intro c hc
        simp [hall c hc]
      rw [hnil] at hp
      exact absurd rfl hp

/-! ### C3 -/

theorem clipFloor_eq : clipFloor = 1 / 10 ^ 9 := by
  rw [clipFloor, Rat.divInt_eq_div]
  norm_num

theorem ppm_eq : ppm = 1 / 10 ^ 6 := by
  rw [ppm, Rat.divInt_eq_div]
  norm_num

theorem cellR_cons (k : String) (v : Val) (r : Record) (c : String) :
    cellR ((k, v) :: r) c = if k = c then v else cellR r c := by
  by_cases h : k = c <;> simp [cellR, alookup, h]

theorem dutyVal_spec (r : Record) :
    dutyVal r = dutyCycleSpec (cellR r "koi_period") (cellR r "koi_duration") := by
  unfold dutyVal dutyCycleSpec
  cases cellR r "koi_period" <;> cases cellR r "koi_duration" <;>
    simp [qdiv_eq, qmul_eq]

theorem depthFracVal_spec (r : Record) :
    depthFracVal r = depthFracSpec (cellR r "koi_depth") := by
  unfold depthFracVal depthFracSpec
  cases cellR r "koi_depth" <;> simp [qmul_eq, qmax_eq, clipFloor_eq, ppm_eq]

theorem rprstarVal_spec (sq : ℚ → ℚ) (r : Record) :
    rprstarVal sq r = rprstarSpec sq (cellR r "koi_depth") := by
  unfold rprstarVal rprstarSpec
  rw [depthFracVal_spec]

theorem logPeriodVal_spec (lg : ℚ → ℚ) (r : Record) :
    logPeriodVal lg r = logPeriodSpec lg (cellR r "koi_period") := by
  unfold logPeriodVal logPeriodSpec
  cases cellR r "koi_period" <;> simp [qmax_eq, clipFloor_eq]

theorem logDepthVal_spec (lg : ℚ → ℚ) (r : Record) :
    logDepthVal lg r = logDepthSpec lg (cellR r "koi_depth") := by
  unfold logDepthVal logDepthSpec
  cases cellR r "koi_depth" <;> simp [qmax_eq, clipFloor_eq]

theorem deriveRow_all (sq lg : ℚ → ℚ) (cols : List String) (r : Record)
    (hper : "koi_period" ∈ cols) (hdur : "koi_duration" ∈ cols)
    (hdep : "koi_depth" ∈ cols) :
    deriveRow sq lg cols r =
      ("log_depth", logDepthVal lg r) :: ("log_period", logPeriodVal lg r) ::
        ("rprstar_est", rprstarVal sq r) :: ("depth_frac", depthFracVal r) ::
        ("duty_cycle", dutyVal r) :: r := by
  unfold deriveRow
  rw [if_pos hdep, if_pos hper,
    if_pos (show "koi_period" ∈ cols ∧ "koi_duration" ∈ cols ∧ "koi_depth" ∈ cols from
      ⟨hper, hdur, hdep⟩)]

/-- C3: on every frame whose columns contain the three base prerequisites,
the derivation step computes, per row, exactly the spec formulas — duty
cycle duration/(period·24) with the division-by-zero case resolving to
missing rather than raising, fractional depth max(depth,1e-9)·1e-6, radius
ratio sqrt of that, and the two clipped base-10 logarithms — and it is a
pure function of the three base cells: rows agreeing on them get identical
derived cells. -/
theorem C3_derive_formulas (sq lg : ℚ → ℚ) (cols : List String) (r : Record)
    (hper : "koi_period" ∈ cols) (hdur : "koi_duration" ∈ cols)
    (hdep : "koi_depth" ∈ cols) :
    cellR (deriveRow sq lg cols r) "duty_cycle" =
      dutyCycleSpec (cellR r "koi_period") (cellR r "koi_duration") ∧
    cellR (deriveRow sq lg cols r) "depth_frac" =
      depthFracSpec (cellR r "koi_depth") ∧
    cellR (deriveRow sq lg cols r) "rprstar_est" =
      rprstarSpec sq (cellR r "koi_depth") ∧
    cellR (deriveRow sq lg cols r) "log_period" =
      logPeriodSpec lg (cellR r "koi_period") ∧
    cellR (deriveRow sq lg cols r) "log_depth" =
      logDepthSpec lg (cellR r "koi_depth") ∧
    (∀ r2 : Record,
      cellR r2 "koi_period" = cellR r "koi_period" →
      cellR r2 "koi_duration" = cellR r "koi_duration" →
      cellR r2 "koi_depth" = cellR r "koi_depth" →
      ∀ c ∈ DERIVED_FEATURES,
        cellR (deriveRow sq lg cols r2) c = cellR (deriveRow sq lg cols r) c) := by
  have hrow := deriveRow_all sq lg cols r hper hdur hdep
  have h1 : cellR (deriveRow sq lg cols r) "duty_cycle" = dutyVal r := by
    rw [hrow]
    simp [cellR_cons]
  have h2 : cellR (deriveRow sq lg cols r) "depth_frac" = depthFracVal r := by
    rw [hrow]
    simp [cellR_cons]
  have h3 : cellR (deriveRow sq lg cols r) "rprstar_est" = rprstarVal sq r := by
    rw [hrow]
    simp [cellR_cons]
  have h4 : cellR (deriveRow sq lg cols r) "log_period" = logPeriodVal lg r := by
    rw [hrow]
    simp [cellR_cons]
  have h5 : cellR (deriveRow sq lg cols r) "log_depth" = logDepthVal lg r := by
    rw [hrow]
    simp [cellR_cons]
  refine ⟨h1.trans (dutyVal_spec r), h2.trans (depthFracVal_spec r),
    h3.trans (rprstarVal_spec sq r), h4.trans (logPeriodVal_spec lg r),
    h5.trans (logDepthVal_spec lg r), ?_⟩
  intro r2 hP hD hDe c hc
  have hrow2 := deriveRow_all sq lg cols r2 hper hdur hdep
  have hduty : dutyVal r2 = dutyVal r := by
    unfold dutyVal
    rw [hP, hD]
  have hdf : depthFracVal r2 = depthFracVal r := by
    unfold depthFracVal
    rw [hDe]
  have hrpr : rprstarVal sq r2 = rprstarVal sq r := by
    unfold rprstarVal
    rw [hdf]
  have hlp : logPeriodVal lg r2 = logPeriodVal lg r := by
    unfold logPeriodVal
    rw [hP]
  have hld : logDepthVal lg r2 = logDepthVal lg r := by
    unfold logDepthVal
    rw [hDe]
  fin_cases hc <;>
    rw [hrow, hrow2] <;>
    simp [cellR_cons, hduty, hdf, hrpr, hlp, hld]

/-- C3 witness: the derivation contract evaluated on a concrete frame. -/
theorem C3_witness :
    ("koi_period" ∈ ["koi_period", "koi_duration", "koi_depth"] ∧
      "koi_duration" ∈ ["koi_period", "koi_duration", "koi_depth"] ∧
      "koi_depth" ∈ ["koi_period", "koi_duration", "koi_depth"]) ∧
    cellR (deriveRow id id ["koi_period", "koi_duration", "koi_depth"] recW)
        "duty_cycle" =
      dutyCycleSpec (cellR recW "koi_period") (cellR recW "koi_duration") := by
  refine ⟨⟨by decide, by decide, by decide⟩, ?_⟩
  exact (C3_derive_formulas id id _ recW (by decide) (by decide) (by decide)).1

/-! ### C8 -/

theorem alookup_eq_none_of_not_mem (k : String) (l : List (String × β))
    (h : k ∉ l.map Prod.fst) : alookup k l = none := by
  induction l with
  | nil => rfl
  | cons hd tl ih =>
    rw [List.map_cons, List.mem_cons, not_or] at h
    rw [alookup, if_neg (fun he => h.1 he.symm)]
    exact ih h.2

theorem mem_buildPayload_keys (tbl : List (String × String)) (fs : Record) :
    ∀ q ∈ buildPayload tbl fs, q.1 ∈ tbl.map Prod.snd := by
  intro q hq
  rw [buildPayload, List.mem_filterMap] at hq
  obtain ⟨ak, hak, he⟩ := hq
  cases h : alookup ak.1 fs with
  | none => rw [h] at he; cases he
  | some v =>
    rw [h] at he
    simp only [Option.map_some', Option.some_inj] at he
    rw [← he]
    exact List.mem_map_of_mem Prod.snd hak

theorem lookup_buildPayload (tbl : List (String × String))
    (hnd : (tbl.map Prod.snd).Nodup) (fs : Record) :
    ∀ p ∈ tbl, alookup p.2 (buildPayload tbl fs) = alookup p.1 fs := by
  induction tbl with
  | nil => intro p hp; cases hp
  | cons hd tl ih =>
    intro p hp
    rw [List.map_cons, List.nodup_cons] at hnd
    have hbp_some : ∀ v, alookup hd.1 fs = some v →
        buildPayload (hd :: tl) fs = (hd.2, v) :: buildPayload tl fs := by
      intro v hv
      rw [buildPayload, List.filterMap_cons, hv]
      rfl
    have hbp_none : alookup hd.1 fs = none →
        buildPayload (hd :: tl) fs = buildPayload tl fs := by
      intro hv
      rw [buildPayload, List.filterMap_cons, hv]
      rfl
    rcases List.mem_cons.mp hp with rfl | hmem
    · cases h : alookup p.1 fs with
      | some v =>
        rw [hbp_some v h, alookup, if_pos rfl]
      | none =>
        rw [hbp_none h]
        apply alookup_eq_none_of_not_mem
        intro hk
        obtain ⟨q, hq, hq1⟩ := List.mem_map.mp hk
        exact hnd.1 (hq1 ▸ mem_buildPayload_keys tl fs q hq)
    · have hne : hd.2 ≠ p.2 :=
        fun he => hnd.1 (he ▸ List.mem_map_of_mem Prod.snd hmem)
      cases h : alookup hd.1 fs with
      | some v =>
        rw [hbp_some v h, alookup, if_neg hne]
        exact ih hnd.2 p hmem
      | none =>
        rw [hbp_none h]
        exact ih hnd.2 p hmem

/-- C8 counterexample: a caller field absent from the mapping table
(`habitability_score`) is dropped by the adapter, not passed through: it is
present in the caller mapping but absent from the payload handed to the
pipeline. -/
theorem C8_counterexample :
    alookup "habitability_score"
        [("orbital_period", (some 1 : Val)), ("habitability_score", some 7)] =
      some (some 7) ∧
    "habitability_score" ∉ APP_TO_KOI.map Prod.fst ∧
    alookup "habitability_score"
      (buildPayload APP_TO_KOI
        [("orbital_period", (some 1 : Val)), ("habitability_score", some 7)]) =
      none := by
  refine ⟨by decide, by decide, by decide⟩

/-- C8 (amended): the adapter translates exactly the table-mapped names —
the payload's binding under each internal name equals the caller's binding
under the corresponding caller-facing name — and every payload key comes
from the table, so caller fields outside the table are dropped rather than
passed through. -/
theorem C8_mapping_amended (fs : Record) :
    (∀ p ∈ APP_TO_KOI, alookup p.2 (buildPayload APP_TO_KOI fs) = alookup p.1 fs) ∧
    (∀ q ∈ buildPayload APP_TO_KOI fs, q.1 ∈ APP_TO_KOI.map Prod.snd) :=
  ⟨lookup_buildPayload APP_TO_KOI (by decide) fs, mem_buildPayload_keys APP_TO_KOI fs⟩

/-- C8 witness: the amended mapping contract evaluated at a concrete
caller mapping and table entry. -/
theorem C8_witness :
    ("orbital_period", "koi_period") ∈ APP_TO_KOI ∧
    alookup "koi_period"
        (buildPayload APP_TO_KOI [("orbital_period", (some 10 : Val))]) =
      alookup "orbital_period" [("orbital_period", (some 10 : Val))] :=
  ⟨by decide,
    (C8_mapping_amended [("orbital_period", (some 10 : Val))]).1
      ("orbital_period", "koi_period") (by decide)⟩

/-! ### C4 -/

/-- C4 (code bug): on the validation set `y = [0,1]`,
`proba = [0.2, 0.8]`, the precision-recall curve offers the candidate
threshold `0.8` with precision `1 ≥ 0.9`, so the claimed behaviour is to
return it; the code instead indexes `thresholds[:-1]` (length 0) with a
boolean mask of length 1 and raises `IndexError` — modelled here as the
embedded `_threshold_from_mode` returning `none` (an escaped exception). -/
theorem C4_target_precision_raises :
    prCurve [0, 1] [Rat.divInt 2 10, Rat.divInt 8 10] =
      ([1, 1], [1, 0], [Rat.divInt 8 10]) ∧
    qle defaultTarget 1 ∧
    thresholdFromMode (.strM "target_precision:0.9") (some [0, 1])
      (some [Rat.divInt 2 10, Rat.divInt 8 10]) = none := by
  refine ⟨by decide, by decide, by decide⟩

/-! ### C7 -/

theorem alookup_storeSave_self (s : Store) (ts : String) (f : VFiles) :
    alookup ts (storeSave s ts f) = some f := by
  induction s with
  | nil => rw [storeSave, alookup, if_pos rfl]
  | cons p rest ih =>
    rw [storeSave]
    by_cases h : p.1 = ts
    · rw [if_pos h, alookup, if_pos rfl]
    · rw [if_neg h, show (p :: storeSave rest ts f : Store) =
        ((p.1, p.2) :: storeSave rest ts f) from rfl, alookup, if_neg h]
      exact ih

theorem alookup_storeSave_ne (s : Store) (ts : String) (f : VFiles) (ts2 : String)
    (h : ts2 ≠ ts) : alookup ts2 (storeSave s ts f) = alookup ts2 s := by
  induction s with
  | nil => simp [storeSave, alookup, Ne.symm h]
  | cons p rest ih =>
    rw [storeSave]
    by_cases hp : p.1 = ts
    · rw [if_pos hp, alookup, if_neg (fun he => h he.symm),
        show (p :: rest : Store) = ((p.1, p.2) :: rest) from rfl, alookup,
        if_neg (fun he => h (hp ▸ he).symm)]
    · rw [if_neg hp, show (p :: storeSave rest ts f : Store) =
        ((p.1, p.2) :: storeSave rest ts f) from rfl, alookup,
        show (p :: rest : Store) = ((p.1, p.2) :: rest) from rfl, alookup]
      by_cases hq : p.1 = ts2
      · rw [if_pos hq, if_pos hq]
      · rw [if_neg hq, if_neg hq]
        exact ih

theorem storeSave_keys_mem (s : Store) (ts : String) (f : VFiles) (x : String) :
    x ∈ (storeSave s ts f).map Prod.fst ↔ x ∈ s.map Prod.fst ∨ x = ts := by
  induction s with
  | nil => simp [storeSave]
  | cons p rest ih =>
    rw [storeSave]
    by_cases h : p.1 = ts
    · rw [if_pos h]
      simp only [List.map_cons, List.mem_cons]
      rw [h]
      tauto
    · rw [if_neg h]
      simp only [List.map_cons, List.mem_cons, ih]
      tauto

theorem storeRun_keys_mem (s : Store) (runs : List (String × VFiles)) (x : String) :
    x ∈ (storeRun s runs).map Prod.fst ↔
      x ∈ s.map Prod.fst ∨ x ∈ runs.map Prod.fst := by
  induction runs generalizing s with
  | nil => simp [storeRun]
  | cons hd tl ih =>
    rw [storeRun, List.foldl_cons,
      show List.foldl (fun acc r => storeSave acc r.1 r.2) (storeSave s hd.1 hd.2) tl =
        storeRun (storeSave s hd.1 hd.2) tl from rfl,
      ih, storeSave_keys_mem, List.map_cons, List.mem_cons]
    tauto

theorem alookup_storeRun_not_mem (s : Store) (runs : List (String × VFiles))
    (ts : String) (h : ts ∉ runs.map Prod.fst) :
    alookup ts (storeRun s runs) = alookup ts s := by
  induction runs generalizing s with
  | nil => rfl
  | cons hd tl ih =>
    rw [List.map_cons, List.mem_cons, not_or] at h
    rw [storeRun, List.foldl_cons,
      show List.foldl (fun acc r => storeSave acc r.1 r.2) (storeSave s hd.1 hd.2) tl =
        storeRun (storeSave s hd.1 hd.2) tl from rfl,
      ih _ h.2, alookup_storeSave_ne _ _ _ _ h.1]

theorem alookup_self_of_nodup (s : Store) (hnd : (s.map Prod.fst).Nodup) :
    ∀ p ∈ s, alookup p.1 s = some p.2 := by
  induction s with
  | nil => intro p hp; cases hp
  | cons hd tl ih =>
    rw [List.map_cons, List.nodup_cons] at hnd
    intro p hp
    rcases List.mem_cons.mp hp with rfl | hmem
    · rw [show (p :: tl : Store) = ((p.1, p.2) :: tl) from rfl, alookup, if_pos rfl]
    · rw [show (hd :: tl : Store) = ((hd.1, hd.2) :: tl) from rfl, alookup,
        if_neg (fun he => hnd.1 (by rw [he]; exact List.mem_map_of_mem Prod.fst hmem))]
      exact ih hnd.2 p hmem

theorem storeRun_lookup_final (store : Store) (l1 l2 : List (String × VFiles))
    (ts : String) (f : VFiles) (h : ts ∉ l2.map Prod.fst) :
    alookup ts (storeRun store (l1 ++ (ts, f) :: l2)) = some f := by
  rw [storeRun, List.foldl_append, List.foldl_cons,
    show List.foldl (fun acc r => storeSave acc r.1 r.2)
        (storeSave (List.foldl (fun acc r => storeSave acc r.1 r.2) store l1) ts f) l2 =
      storeRun (storeSave (storeRun store l1) ts f) l2 from rfl,
    alookup_storeRun_not_mem _ _ _ h, alookup_storeSave_self]

/-- C7 counterexample: two runs persisting under the same timestamp — the
second run's version directory did previously exist (created by the first
run) and the second run overwrites the first run's files, so a version
directory is not immutable as claimed. -/
theorem C7_counterexample :
    ((storeSave [] "20240101T000000Z" ⟨1, 1⟩).any
      fun p => p.1 = "20240101T000000Z") = true ∧
    alookup "20240101T000000Z"
      (storeRun [] [("20240101T000000Z", ⟨1, 1⟩), ("20240101T000000Z", ⟨2, 2⟩)]) =
      some ⟨2, 2⟩ ∧
    (⟨2, 2⟩ : VFiles) ≠ ⟨1, 1⟩ := by
  refine ⟨by decide, by decide, by decide⟩

/-- C7 (amended): provided the run timestamps are pairwise distinct and
distinct from every version already in the store — which holds whenever no
two runs share the same UTC second — every run's version directory did not
previously exist, existing versions are never modified (their files read
back unchanged after all runs), and each run's directory finally holds
exactly the files that run wrote.  With a timestamp collision the second
run reuses and overwrites the existing directory (see the
counterexample). -/
theorem C7_versions_amended (store : Store) (runs : List (String × VFiles))
    (hnd : ((store.map Prod.fst) ++ runs.map Prod.fst).Nodup) :
    (∀ p ∈ store, alookup p.1 (storeRun store runs) = some p.2) ∧
    (∀ i (hi : i < runs.length),
      ((storeRun store (runs.take i)).any fun q => q.1 = runs[i].1) = false ∧
      alookup runs[i].1 (storeRun store runs) = some runs[i].2) := by
  rw [List.nodup_append] at hnd
  obtain ⟨hs, hr, hdisj⟩ := hnd
  constructor
  · intro p hp
    have hnotm : p.1 ∉ runs.map Prod.fst :=
      fun hm => hdisj (List.mem_map_of_mem Prod.fst hp) hm
    rw [alookup_storeRun_not_mem store runs p.1 hnotm]
    exact alookup_self_of_nodup store hs p hp
  · intro i hi
    have hsplit : runs = runs.take i ++ runs[i] :: runs.drop (i + 1) := by
      conv_lhs => rw [← List.take_append_drop i runs, List.drop_eq_getElem_cons hi]
    have hr2 := hr
    rw [hsplit, List.map_append, List.map_cons, List.nodup_append] at hr2
    obtain ⟨htk, hcons, hdisj2⟩ := hr2
    rw [List.nodup_cons] at hcons
    have hmem_i : runs[i].1 ∈ runs.map Prod.fst := by
      refine List.mem_map_of_mem Prod.fst ?_
      exact List.getElem_mem hi
    constructor
    · rw [List.any_eq_false]
      intro q hq
      simp only [decide_eq_true_eq]
      intro hqe
      have hqk := (storeRun_keys_mem store (runs.take i) q.1).mp
        (List.mem_map_of_mem Prod.fst hq)
      rcases hqk with hk | hk
      · exact hdisj (hqe ▸ hk) hmem_i
      · exact hdisj2 (hqe ▸ hk) (List.mem_cons_self _ _)
    · have hgoal : storeRun store runs =
          storeRun store (runs.take i ++ runs[i] :: runs.drop (i + 1)) := by
        rw [← hsplit]
      rw [hgoal]
      exact storeRun_lookup_final store (runs.take i) (runs.drop (i + 1))
        runs[i].1 runs[i].2 hcons.1

/-- C7 witness: the amended statement evaluated on a concrete store and
two distinct-timestamp runs. -/
theorem C7_witness :
    ((([("20240101T000000Z", (⟨1, 1⟩ : VFiles))].map Prod.fst) ++
      ([("20240102T000000Z", (⟨2, 2⟩ : VFiles)),
        ("20240103T000000Z", ⟨3, 3⟩)].map Prod.fst)).Nodup) ∧
    (∀ p ∈ [("20240101T000000Z", (⟨1, 1⟩ : VFiles))],
      alookup p.1 (storeRun [("20240101T000000Z", ⟨1, 1⟩)]
        [("20240102T000000Z", ⟨2, 2⟩), ("20240103T000000Z", ⟨3, 3⟩)]) = some p.2) := by
  have hnd : ((([("20240101T000000Z", (⟨1, 1⟩ : VFiles))].map Prod.fst) ++
      ([("20240102T000000Z", (⟨2, 2⟩ : VFiles)),
        ("20240103T000000Z", ⟨3, 3⟩)].map Prod.fst)).Nodup) := by decide
  exact ⟨hnd,
    (C7_versions_amended [("20240101T000000Z", ⟨1, 1⟩)]
      [("20240102T000000Z", ⟨2, 2⟩), ("20240103T000000Z", ⟨3, 3⟩)] hnd).1⟩

/-! ### C5 -/

theorem ttsTake_spec {α : Type} (rows : List α) (q : ℚ) (seed : ℕ)
    (strat : Option (List ℤ)) (_hq0 : 0 < q) (hq1 : q < 1) :
    ((ttsTake rows q seed strat).1 ++ (ttsTake rows q seed strat).2).Perm rows ∧
    (ttsTake rows q seed strat).2.length = ⌈q * (rows.length : ℚ)⌉₊ ∧
    (ttsTake rows q seed strat).1.length =
      rows.length - ⌈q * (rows.length : ℚ)⌉₊ := by
  have hm : ⌈q * (rows.length : ℚ)⌉₊ ≤ rows.length := by
    rw [Nat.ceil_le]
    calc q * (rows.length : ℚ) ≤ 1 * (rows.length : ℚ) :=
      mul_le_mul_of_nonneg_right (le_of_lt hq1) (by positivity)
    _ = (rows.length : ℚ) := one_mul _
  refine ⟨?_, ?_, ?_⟩
  · exact (List.perm_append_comm).trans
      (by rw [List.take_append_drop] : (rows.take _ ++ rows.drop _).Perm rows)
  · rw [show (ttsTake rows q seed strat).2 =
      rows.take ⌈q * (rows.length : ℚ)⌉₊ from rfl, List.length_take]
    exact min_eq_left hm
  · rw [show (ttsTake rows q seed strat).1 =
      rows.drop ⌈q * (rows.length : ℚ)⌉₊ from rfl, List.length_drop]

theorem q410_bounds : (0 : ℚ) < Rat.divInt 4 10 ∧ Rat.divInt 4 10 < 1 := by
  rw [Rat.divInt_eq_div]
  norm_num

theorem q510_bounds : (0 : ℚ) < Rat.divInt 5 10 ∧ Rat.divInt 5 10 < 1 := by
  rw [Rat.divInt_eq_div]
  norm_num

/-- C5: given the library splitter's documented contract (a partition whose
test part has `⌈testSize·n⌉` rows, for any stratify argument), the 60/20/20
wrapper on a non-empty dataset returns three lists that partition the input,
with sizes given by the two-stage `⌈·⌉` arithmetic — in particular
600/200/200 on 1000 rows; the first-stage stratify argument is the label
column exactly when it exists and shows two classes; and the result is a
function of the rows, label configuration and seed alone (determinism under
a fixed seed). -/
theorem C5_split_contract {α : Type}
    (tts : List α → ℚ → ℕ → Option (List ℤ) → List α × List α)
    (htts : ∀ (rows : List α) (q : ℚ) (seed : ℕ) (strat : Option (List ℤ)),
      0 < q → q < 1 →
      ((tts rows q seed strat).1 ++ (tts rows q seed strat).2).Perm rows ∧
      (tts rows q seed strat).2.length = ⌈q * (rows.length : ℚ)⌉₊ ∧
      (tts rows q seed strat).1.length = rows.length - ⌈q * (rows.length : ℚ)⌉₊)
    (rows : List α) (hasLabel : Bool) (lab : α → ℤ) (seed : ℕ)
    (hrows : rows ≠ []) :
    ((train_val_test_split_frame tts rows hasLabel lab seed).1 ++
      ((train_val_test_split_frame tts rows hasLabel lab seed).2.1 ++
        (train_val_test_split_frame tts rows hasLabel lab seed).2.2)).Perm rows ∧
    (train_val_test_split_frame tts rows hasLabel lab seed).1.length =
      rows.length - ⌈Rat.divInt 4 10 * (rows.length : ℚ)⌉₊ ∧
    (train_val_test_split_frame tts rows hasLabel lab seed).2.2.length =
      ⌈Rat.divInt 5 10 * ((⌈Rat.divInt 4 10 * (rows.length : ℚ)⌉₊ : ℕ) : ℚ)⌉₊ ∧
    (train_val_test_split_frame tts rows hasLabel lab seed).2.1.length =
      ⌈Rat.divInt 4 10 * (rows.length : ℚ)⌉₊ -
        ⌈Rat.divInt 5 10 * ((⌈Rat.divInt 4 10 * (rows.length : ℚ)⌉₊ : ℕ) : ℚ)⌉₊ ∧
    (rows.length = 1000 →
      (train_val_test_split_frame tts rows hasLabel lab seed).1.length = 600 ∧
      (train_val_test_split_frame tts rows hasLabel lab seed).2.1.length = 200 ∧
      (train_val_test_split_frame tts rows hasLabel lab seed).2.2.length = 200) ∧
    ((stratArg hasLabel (rows.map lab)).isSome = true ↔
      (hasLabel = true ∧ nuniqueZ (rows.map lab) = 2)) ∧
    (∀ rows2, rows2 = rows →
      train_val_test_split_frame tts rows2 hasLabel lab seed =
        train_val_test_split_frame tts rows hasLabel lab seed) := by
  obtain ⟨h4a, h4b⟩ := q410_bounds
  obtain ⟨h5a, h5b⟩ := q510_bounds
  have hne : rows.isEmpty = false := by
    cases rows with
    | nil => exact absurd rfl hrows
    | cons a l => rfl
  have hsplit : train_val_test_split_frame tts rows hasLabel lab seed =
      (let s1 := stratArg hasLabel (rows.map lab)
       let pr := tts rows (Rat.divInt 4 10) seed s1
       let s2 := stratArg hasLabel (pr.2.map lab)
       let pv := tts pr.2 (Rat.divInt 5 10) seed s2
       (pr.1, pv.1, pv.2)) := by
    unfold train_val_test_split_frame
    rw [hne]
    rfl
  obtain ⟨hperm1, hlen1t, hlen1k⟩ :=
    htts rows (Rat.divInt 4 10) seed (stratArg hasLabel (rows.map lab)) h4a h4b
  obtain ⟨hperm2, hlen2t, hlen2k⟩ :=
    htts (tts rows (Rat.divInt 4 10) seed (stratArg hasLabel (rows.map lab))).2
      (Rat.divInt 5 10) seed
      (stratArg hasLabel
        ((tts rows (Rat.divInt 4 10) seed (stratArg hasLabel (rows.map lab))).2.map lab))
      h5a h5b
  have e1 : (train_val_test_split_frame tts rows hasLabel lab seed).1 =
      (tts rows (Rat.divInt 4 10) seed (stratArg hasLabel (rows.map lab))).1 := by
    rw [hsplit]
  have e2 : (train_val_test_split_frame tts rows hasLabel lab seed).2.1 =
      (tts (tts rows (Rat.divInt 4 10) seed (stratArg hasLabel (rows.map lab))).2
        (Rat.divInt 5 10) seed
        (stratArg hasLabel
          ((tts rows (Rat.divInt 4 10) seed
            (stratArg hasLabel (rows.map lab))).2.map lab))).1 := by
    rw [hsplit]
  have e3 : (train_val_test_split_frame tts rows hasLabel lab seed).2.2 =
      (tts (tts rows (Rat.divInt 4 10) seed (stratArg hasLabel (rows.map lab))).2
        (Rat.divInt 5 10) seed
        (stratArg hasLabel
          ((tts rows (Rat.divInt 4 10) seed
            (stratArg hasLabel (rows.map lab))).2.map lab))).2 := by
    rw [hsplit]
  have hL1 : (train_val_test_split_frame tts rows hasLabel lab seed).1.length =
      rows.length - ⌈Rat.divInt 4 10 * (rows.length : ℚ)⌉₊ := by
    rw [e1, hlen1k]
  have hL3 : (train_val_test_split_frame tts rows hasLabel lab seed).2.2.length =
      ⌈Rat.divInt 5 10 * ((⌈Rat.divInt 4 10 * (rows.length : ℚ)⌉₊ : ℕ) : ℚ)⌉₊ := by
    rw [e3, hlen2t, hlen1t]
  have hL2 : (train_val_test_split_frame tts rows hasLabel lab seed).2.1.length =
      ⌈Rat.divInt 4 10 * (rows.length : ℚ)⌉₊ -
        ⌈Rat.divInt 5 10 * ((⌈Rat.divInt 4 10 * (rows.length : ℚ)⌉₊ : ℕ) : ℚ)⌉₊ := by
    rw [e2, hlen2k, hlen1t]
  have hceil4 : ∀ n : ℕ, n = 1000 → ⌈Rat.divInt 4 10 * (n : ℚ)⌉₊ = 400 := by
    intro n hn
    subst hn
    rw [Rat.divInt_eq_div]
    rw [show (4 : ℤ) / (10 : ℤ) * ((1000 : ℕ) : ℚ) = ((400 : ℕ) : ℚ) by push_cast; norm_num]
    exact Nat.ceil_natCast 400
  have hceil5 : ⌈Rat.divInt 5 10 * ((400 : ℕ) : ℚ)⌉₊ = 200 := by
    rw [Rat.divInt_eq_div]
    rw [show (5 : ℤ) / (10 : ℤ) * ((400 : ℕ) : ℚ) = ((200 : ℕ) : ℚ) by push_cast; norm_num]
    exact Nat.ceil_natCast 200
  refine ⟨?_, hL1, hL3, hL2, ?_, ?_, ?_⟩
  · rw [e1, e2, e3]
    exact ((hperm2.append_left _).trans hperm1)
  · intro hn
    refine ⟨?_, ?_, ?_⟩
    · rw [hL1, hn, hceil4 1000 rfl]
    · rw [hL2, hn, hceil4 1000 rfl, hceil5]
    · rw [hL3, hn, hceil4 1000 rfl, hceil5]
  · by_cases h : hasLabel = true ∧ nuniqueZ (rows.map lab) = 2
    · rw [stratArg, if_pos h]
      exact iff_of_true rfl h
    · rw [stratArg, if_neg h]
      exact iff_of_false (by simp) h
  · intro rows2 h2
    rw [h2]

/-- C5 witness: the split contract for the reference splitter on a concrete
three-row labelled dataset. -/
theorem C5_witness :
    (∀ (rows : List ℤ) (q : ℚ) (seed : ℕ) (strat : Option (List ℤ)),
      0 < q → q < 1 →
      ((ttsTake rows q seed strat).1 ++ (ttsTake rows q seed strat).2).Perm rows ∧
      (ttsTake rows q seed strat).2.length = ⌈q * (rows.length : ℚ)⌉₊ ∧
      (ttsTake rows q seed strat).1.length =
        rows.length - ⌈q * (rows.length : ℚ)⌉₊) ∧
    ([0, 1, 2] : List ℤ) ≠ [] ∧
    ((train_val_test_split_frame ttsTake [0, 1, 2] true id 42).1 ++
      ((train_val_test_split_frame ttsTake [0, 1, 2] true id 42).2.1 ++
        (train_val_test_split_frame ttsTake [0, 1, 2] true id 42).2.2)).Perm
      [0, 1, 2] := by
  have htts := fun (rows : List ℤ) q seed strat h0 h1 =>
    ttsTake_spec rows q seed strat h0 h1
  have hne : ([0, 1, 2] : List ℤ) ≠ [] := by decide
  exact ⟨htts, hne,
    (C5_split_contract ttsTake htts [0, 1, 2] true id 42 hne).1⟩

/-! ### C6 -/

/-- C6: the retraining entry point aborts with the corresponding error —
and records no artifact-save and no activation effect, leaving every
version directory and `current` untouched — when the input file does not
exist, when the label column is absent from the loaded frame, or when some
of the eleven base features are absent (the error then carrying exactly the
missing base-feature list, in `BASE_FEATURES` order). -/
theorem C6_retrain_errors
    (tts : List Record → ℚ → ℕ → Option (List ℤ) → List Record × List Record)
    (fit : List (List Val) → List ℤ → List Val → ℚ)
    (inp : RetrainIn) :
    (inp.fileExists = false →
      retrain_from_csv tts fit inp = ([REff.mkdirs], .error .fileNotFound)) ∧
    (inp.fileExists = true → inp.labelCol ∉ inp.df.cols →
      retrain_from_csv tts fit inp = ([REff.mkdirs], .error .labelMissing)) ∧
    (inp.fileExists = true → inp.labelCol ∈ inp.df.cols →
      (BASE_FEATURES.filter fun c => c ∉ deriveCols inp.df.cols) ≠ [] →
      retrain_from_csv tts fit inp =
        ([REff.mkdirs], .error (.missingCols
          (BASE_FEATURES.filter fun c => c ∉ deriveCols inp.df.cols)))) ∧
    (REff.save inp.ts ∉ ([REff.mkdirs] : List REff) ∧
      REff.activateEff inp.ts ∉ ([REff.mkdirs] : List REff)) := by
  refine ⟨?_, ?_, ?_, by simp, by simp⟩
  · intro h
    simp [retrain_from_csv, h]
  · intro h1 h2
    simp [retrain_from_csv, h1, h2]
  · intro h1 h2 h3
    have hprep : ∀ f : Frame, f.cols = inp.df.cols →
        prepTrainingFrame f =
          .error (BASE_FEATURES.filter fun c => c ∉ deriveCols inp.df.cols) := by
      intro f hf
      simp only [prepTrainingFrame, hf]
      rw [if_neg (fun hE => h3 (List.isEmpty_iff.mp hE))]
    have herr := hprep (splitFrame tts inp.df inp.labelCol 42).1 rfl
    simp only [retrain_from_csv]
    rw [if_neg (by simp [h1]), if_neg (fun hn => hn h2), herr]

/-- C6 witness: the retraining error contract evaluated at an input whose
file does not exist. -/
theorem C6_witness :
    inpW.fileExists = false ∧
    retrain_from_csv ttsTake fitW inpW =
      ([REff.mkdirs], Except.error RErr.fileNotFound) :=
  ⟨rfl, (C6_retrain_errors ttsTake fitW inpW).1 rfl⟩

/-! ### C2 -/

/-- C2 counterexample: with empty precomputed medians (the documented
start-up fallback), predicting the period-only record inside a batch next
to a record that has a depth column imputes its missing depth from the
other row, while predicting it alone leaves the depth missing — the two
pipelines hand the classifier different matrices and produce different
probabilities and labels for the same record and threshold. -/
theorem C2_counterexample :
    ((predict_batch envC2 [recC2a, recC2b] none).map BatchRow.probability)[0]? =
      some (Rat.divInt 9 10) ∧
    ((predict_batch envC2 [recC2a, recC2b] none).map BatchRow.label)[0]? = some 1 ∧
    (predict_one envC2 recC2a none).probability = Rat.divInt 1 10 ∧
    (predict_one envC2 recC2a none).label = 0 ∧
    ((predict_batch envC2 [recC2a, recC2b] none).map BatchRow.probability)[0]? ≠
      some (predict_one envC2 recC2a none).probability := by
  refine ⟨by decide, by decide, by decide, by decide, by decide⟩

theorem mem_colsUnion_of_mem {recs : List Record} {r : Record}
    (hr : r ∈ recs) {c : String} (hc : c ∈ keysR r) : c ∈ colsUnion recs := by
  induction recs with
  | nil => cases hr
  | cons hd tl ih =>
    rw [colsUnion, List.mem_append]
    rcases List.mem_cons.mp hr with rfl | hmem
    · exact Or.inl hc
    · exact Or.inr (ih hmem)

theorem cellR_eq_none {r : Record} {c : String} (h : c ∉ keysR r) :
    cellR r c = none := by
  unfold cellR
  rw [alookup_eq_none_of_not_mem c r h]

theorem deriveRow_congr (sq lg : ℚ → ℚ) {cols1 cols2 : List String}
    (Hc : ∀ c, c ∈ cols1 ↔ c ∈ cols2) (r : Record) :
    deriveRow sq lg cols1 r = deriveRow sq lg cols2 r := by
  have eA : ("koi_period" ∈ cols2) = ("koi_period" ∈ cols1) :=
    propext (Hc "koi_period").symm
  have eB : ("koi_duration" ∈ cols2) = ("koi_duration" ∈ cols1) :=
    propext (Hc "koi_duration").symm
  have eC : ("koi_depth" ∈ cols2) = ("koi_depth" ∈ cols1) :=
    propext (Hc "koi_depth").symm
  simp only [deriveRow, eA, eB, eC]

theorem mem_deriveCols_iff (cols : List String) (c : String) :
    c ∈ deriveCols cols ↔
      (c ∈ cols ∨
        (("koi_period" ∈ cols ∧ "koi_duration" ∈ cols ∧ "koi_depth" ∈ cols) ∧
          (c = "duty_cycle" ∨ c = "depth_frac" ∨ c = "rprstar_est")) ∨
        ("koi_period" ∈ cols ∧ c = "log_period") ∨
        ("koi_depth" ∈ cols ∧ c = "log_depth")) := by
  by_cases hA : "koi_period" ∈ cols <;> by_cases hB : "koi_duration" ∈ cols <;>
    by_cases hC : "koi_depth" ∈ cols <;>
    simp only [deriveCols, hA, hB, hC, true_and, false_and, and_true, and_false,
      if_true, if_false, and_self, List.mem_append, List.mem_cons,
      List.mem_singleton, List.not_mem_nil, or_false, false_or, if_pos, if_neg,
      not_true, not_false_iff, ite_true, ite_false] <;>
    tauto

theorem mem_deriveCols_congr {cols1 cols2 : List String}
    (Hc : ∀ c, c ∈ cols1 ↔ c ∈ cols2) (c : String) :
    c ∈ deriveCols cols1 ↔ c ∈ deriveCols cols2 := by
  rw [mem_deriveCols_iff, mem_deriveCols_iff, Hc c, Hc "koi_period",
    Hc "koi_duration", Hc "koi_depth"]

theorem alignRow_congr (feats : List String) {cols1 cols2 : List String}
    (Hc : ∀ c, c ∈ cols1 ↔ c ∈ cols2) (r : Record) :
    alignRow feats cols1 r = alignRow feats cols2 r := by
  unfold alignRow
  apply List.map_congr_left
  intro c _
  exact if_congr (Hc c) rfl rfl

theorem prepRow_congr (E : ModelEnv) {cols1 cols2 : List String}
    (Hc : ∀ c, c ∈ cols1 ↔ c ∈ cols2) (r : Record) :
    prepRow E cols1 r = prepRow E cols2 r := by
  unfold prepRow
  rw [deriveRow_congr E.sq E.lg Hc r,
    alignRow_congr E.features (mem_deriveCols_congr Hc) (deriveRow E.sq E.lg cols2 r)]

theorem alignRow_length (feats cols : List String) (r : Record) :
    (alignRow feats cols r).length = feats.length := by
  simp [alignRow]

theorem prepRow_length (E : ModelEnv) (cols : List String) (r : Record) :
    (prepRow E cols r).length = E.features.length := by
  unfold prepRow fillMedRow
  by_cases hM : E.medians.isEmpty
  · rw [if_pos hM, alignRow_length]
  · rw [if_neg hM, List.length_map, List.length_zip, alignRow_length, min_self]

theorem prepRow_isSome (E : ModelEnv)
    (hmed : ∀ c ∈ E.features, goodMed E.medians c = true)
    (cols : List String) (r : Record) :
    ∀ v ∈ prepRow E cols r, v.isSome := by
  intro v hv
  unfold prepRow fillMedRow at hv
  by_cases hM : E.medians.isEmpty
  · rw [if_pos hM] at hv
    obtain ⟨c, hc, rfl⟩ := List.mem_map.mp hv
    have hg := hmed c hc
    rw [List.isEmpty_iff.mp hM] at hg
    simp [goodMed, alookup] at hg
  · rw [if_neg hM] at hv
    obtain ⟨cv, hcv, rfl⟩ := List.mem_map.mp hv
    have hcf : cv.1 ∈ E.features := (List.of_mem_zip hcv).1
    have hg := hmed cv.1 hcf
    unfold goodMed at hg
    cases h2 : cv.2 with
    | some q => simp
    | none =>
      cases h3 : alookup cv.1 E.medians with
      | none => rw [h3] at hg; simp at hg
      | some w =>
        cases w with
        | none => rw [h3] at hg; simp at hg
        | some m => simp [h2, h3]

theorem zipWith_keep :
    ∀ (row meds : List Val), (∀ v ∈ row, v.isSome) → row.length ≤ meds.length →
      List.zipWith
        (fun v m =>
          match v with
          | some q => some q
          | none => m)
        row meds = row
  | [], _, _, _ => rfl
  | v :: row, [], _, hlen => absurd hlen (by simp)
  | v :: row, m :: meds, hsome, hlen => by
    rw [List.zipWith_cons_cons]
    obtain ⟨q, hq⟩ := Option.isSome_iff_exists.mp (hsome v (List.mem_cons_self v row))
    rw [hq]
    rw [zipWith_keep row meds (fun w hw => hsome w (List.mem_cons_of_mem v hw))
      (by simpa using hlen)]

theorem fillBatchMedian_of_isSome (n : ℕ) (X : List (List Val))
    (hsome : ∀ row ∈ X, ∀ v ∈ row, v.isSome)
    (hlen : ∀ row ∈ X, row.length ≤ n) :
    fillBatchMedian n X = X := by
  unfold fillBatchMedian
  conv_rhs => rw [← List.map_id X]
  apply List.map_congr_left
  intro row hrow
  rw [zipWith_keep row (colMedians n X) (hsome row hrow)
    (by rw [show (colMedians n X).length = n by simp [colMedians]]; exact hlen row hrow)]
  rfl

/-- C2 (amended): the i-th row of a batch prediction agrees with the
single-record prediction of the i-th record — same probability and same
label, for any classifier, features, threshold and record index — provided
(1) the precomputed feature medians supply a finite value for every
configured feature (so no cell survives to the batch-median fallback,
which imputes from the other rows of the batch), and (2) all records of
the batch mention the same set of keys (so the frame-level column set, and
with it derivation and alignment, is the same in the batch frame and in
the single-record frame).  The counterexample shows the claim fails
without these provisos. -/
theorem C2_batch_one_amended (E : ModelEnv) (recs : List Record) (t : Option ℚ)
    (i : ℕ) (hi : i < recs.length)
    (hkeys : ∀ r ∈ recs, ∀ c ∈ colsUnion recs, c ∈ keysR r)
    (hmed : ∀ c ∈ E.features, goodMed E.medians c = true) :
    ∃ b, (predict_batch E recs t)[i]? = some b ∧
      b.probability = (predict_one E recs[i] t).probability ∧
      b.label = (predict_one E recs[i] t).label := by
  have hXb : prepare E recs = recs.map (prepRow E (colsUnion recs)) := by
    unfold prepare
    apply fillBatchMedian_of_isSome
    · intro row hrow
      obtain ⟨r, _, rfl⟩ := List.mem_map.mp hrow
      exact prepRow_isSome E hmed _ r
    · intro row hrow
      obtain ⟨r, _, rfl⟩ := List.mem_map.mp hrow
      rw [prepRow_length]
  have hmemi : recs[i] ∈ recs := List.getElem_mem hi
  have HcU : ∀ c, c ∈ colsUnion recs ↔ c ∈ colsUnion [recs[i]] := by
    intro c
    constructor
    · intro hc
      rw [colsUnion, colsUnion, List.append_nil]
      exact hkeys recs[i] hmemi c hc
    · intro hc
      rw [colsUnion, colsUnion, List.append_nil] at hc
      exact mem_colsUnion_of_mem hmemi hc
  have hXs : prepare E [recs[i]] = [prepRow E (colsUnion [recs[i]]) recs[i]] := by
    have he : prepare E [recs[i]] =
        fillBatchMedian E.features.length
          [prepRow E (colsUnion [recs[i]]) recs[i]] := rfl
    rw [he]
    apply fillBatchMedian_of_isSome
    · intro row hrow
      rw [List.mem_singleton] at hrow
      rw [hrow]
      exact prepRow_isSome E hmed _ _
    · intro row hrow
      rw [List.mem_singleton] at hrow
      rw [hrow, prepRow_length]
  have hroweq : prepRow E (colsUnion recs) recs[i] =
      prepRow E (colsUnion [recs[i]]) recs[i] :=
    prepRow_congr E HcU recs[i]
  have hone_prob : (predict_one E recs[i] t).probability =
      E.rf (prepRow E (colsUnion recs) recs[i]) := by
    show E.rf ((prepare E [recs[i]]).getD 0 []) = _
    rw [hXs, hroweq]
    rfl
  have hone_lab : (predict_one E recs[i] t).label =
      (if qle (effThreshold E t) (E.rf (prepRow E (colsUnion recs) recs[i]))
        then 1 else 0) := by
    show (if qle (effThreshold E t) (E.rf ((prepare E [recs[i]]).getD 0 []))
      then 1 else 0) = _
    rw [hXs, hroweq]
    rfl
  refine ⟨⟨prepRow E (colsUnion recs) recs[i],
    E.rf (prepRow E (colsUnion recs) recs[i]),
    if qle (effThreshold E t) (E.rf (prepRow E (colsUnion recs) recs[i]))
      then 1 else 0⟩, ?_, ?_, ?_⟩
  · show ((prepare E recs).map fun row =>
      (⟨row, E.rf row, if qle (effThreshold E t) (E.rf row) then 1 else 0⟩ :
        BatchRow))[i]? = _
    rw [List.getElem?_map, hXb, List.getElem?_map,
      List.getElem?_eq_getElem hi]
    rfl
  · rw [hone_prob]
  · rw [hone_lab]

/-- C2 witness: the amended agreement applied to a concrete singleton
batch under an environment with complete medians. -/
theorem C2_witness :
    (∀ r ∈ [recC2b], ∀ c ∈ colsUnion [recC2b], c ∈ keysR r) ∧
    (∀ c ∈ envM.features, goodMed envM.medians c = true) ∧
    (∃ b, (predict_batch envM [recC2b] none)[0]? = some b ∧
      b.probability = (predict_one envM ([recC2b])[0] none).probability ∧
      b.label = (predict_one envM ([recC2b])[0] none).label) := by
  have h1 : ∀ r ∈ [recC2b], ∀ c ∈ colsUnion [recC2b], c ∈ keysR r := by decide
  have h2 : ∀ c ∈ envM.features, goodMed envM.medians c = true := by decide
  exact ⟨h1, h2,
    C2_batch_one_amended envM [recC2b] none 0 (by decide) h1 h2⟩

end Exo
